import Mathlib

/-!
Verification development for a filesystem-backed S3-compatible object server
with a debounced git sync worker.  Go strings are embedded as `List Char`
(ASCII byte strings), the SigV4 verifier and the HTTP object handlers are
translated function by function, the filesystem is a flat map from segment
paths to file data plus a set of directories, and the debounce timer is an
event-processing state machine.
-/

set_option maxRecDepth 20000

namespace Git3

/-- Go strings, embedded as lists of characters (byte strings; all inputs in
this development are ASCII, where Go's `[]byte` conversion is the identity on
code points). -/
abbrev Str := List Char

/-- Bytes of a Go string (ASCII model of `[]byte(s)`). -/
def strBytes (s : Str) : List Nat := s.map Char.toNat

/-- ASCII lower-casing of one character. -/
def asciiLower (c : Char) : Char :=
  if 'A' ≤ c ∧ c ≤ 'Z' then Char.ofNat (c.toNat + 32) else c

/-- ASCII lower-casing of a string. -/
def lowerStr (s : Str) : Str := s.map asciiLower

/-- Go `unicode.IsSpace` restricted to ASCII. -/
def goIsSpace (c : Char) : Bool :=
  c = ' ' ∨ c = '\t' ∨ c = '\n' ∨ c = '\x0b' ∨ c = '\x0c' ∨ c = '\r'

/-- Drop leading whitespace. -/
def trimLeft : Str → Str
  | [] => []
  | c :: rest => if goIsSpace c then trimLeft rest else c :: rest

/-- Go `strings.TrimSpace`. -/
def trimSpace (s : Str) : Str := ((trimLeft s).reverse |> trimLeft).reverse

/-- Go `strings.Split(s, string(sep))` for a one-character separator. -/
def splitChar (sep : Char) : Str → List Str
  | [] => [[]]
  | c :: rest =>
    if c = sep then [] :: splitChar sep rest
    else
      match splitChar sep rest with
      | [] => [[c]]
      | g :: gs => (c :: g) :: gs

/-- Go `strings.Split(s, string([sep1, sep2]))` for a two-character separator
(leftmost, non-overlapping occurrences). -/
def splitSeq (s1 s2 : Char) : Str → List Str
  | [] => [[]]
  | [c] => [[c]]
  | c1 :: c2 :: rest =>
    if c1 = s1 ∧ c2 = s2 then [] :: splitSeq s1 s2 rest
    else
      match splitSeq s1 s2 (c2 :: rest) with
      | [] => [[c1]]
      | g :: gs => (c1 :: g) :: gs

/-- Go `strings.SplitN(s, string(sep), 2)`: split at the first occurrence
of `sep` only. -/
def splitN2 (sep : Char) : Str → List Str
  | [] => [[]]
  | c :: rest =>
    if c = sep then [[], rest]
    else
      match splitN2 sep rest with
      | [] => [[c]]
      | g :: gs => (c :: g) :: gs

/-- Go `strings.Join(xs, sep)`. -/
def joinSep (sep : Str) : List Str → Str
  | [] => []
  | [x] => x
  | x :: rest => x ++ sep ++ joinSep sep rest

/-- Insert into a list kept ordered by the boolean relation `le`. -/
def insertLe {α : Type} (le : α → α → Bool) (x : α) : List α → List α
  | [] => [x]
  | y :: ys => if le x y then x :: y :: ys else y :: insertLe le x ys

/-- Insertion sort by the boolean relation `le`; models Go's `sort` package
(`sort.Strings`, `url.Values.Encode` key ordering, `sort.Slice`). -/
def sortLe {α : Type} (le : α → α → Bool) : List α → List α
  | [] => []
  | x :: xs => insertLe le x (sortLe le xs)

/-- Byte-wise lexicographic order on strings, as Go string comparison. -/
def lexLeB : Str → Str → Bool
  | [], _ => true
  | _ :: _, [] => false
  | c1 :: r1, c2 :: r2 =>
    if c1.toNat < c2.toNat then true
    else if c2.toNat < c1.toNat then false
    else lexLeB r1 r2

/-- Decimal rendering of a natural number, with explicit fuel so that the
definition is structural. -/
def natToStrGo (fuel : Nat) (n : Nat) : Str :=
  match fuel with
  | 0 => []
  | f + 1 =>
    if n < 10 then [Char.ofNat (48 + n)]
    else natToStrGo f (n / 10) ++ [Char.ofNat (48 + n % 10)]

/-- Decimal rendering of a natural number (Go `fmt.Sprintf` with a count). -/
def natToStr (n : Nat) : Str := natToStrGo (n + 1) n

/-- Go `strconv.Atoi` on the digits part: value of a non-empty all-digit
string. -/
def digitsVal : Str → Option Nat
  | [] => none
  | s => go s 0
where
  go : Str → Nat → Option Nat
    | [], acc => some acc
    | c :: rest, acc =>
      if '0' ≤ c ∧ c ≤ '9' then go rest (acc * 10 + (c.toNat - 48))
      else none

/-- Go `strconv.Atoi`. -/
def goAtoi : Str → Option Int
  | [] => none
  | '-' :: rest => (digitsVal rest).map (fun n => -(n : Int))
  | '+' :: rest => (digitsVal rest).map (fun n => (n : Int))
  | s => (digitsVal s).map (fun n => (n : Int))

/-! ### SHA-256 over byte lists

A faithful executable model of Go's `crypto/sha256` (FIPS 180-4) over
`List Nat` bytes, all arithmetic on `Nat` with explicit reduction mod 2^32. -/

/-- 32-bit truncation. -/
def w32 (n : Nat) : Nat := n % 4294967296

/-- Right rotation of a 32-bit word. -/
def rotr (k x : Nat) : Nat := w32 ((x >>> k) ||| (x <<< (32 - k)))

/-- SHA-256 small sigma 0. -/
def ssig0 (x : Nat) : Nat := (rotr 7 x) ^^^ (rotr 18 x) ^^^ (x >>> 3)

/-- SHA-256 small sigma 1. -/
def ssig1 (x : Nat) : Nat := (rotr 17 x) ^^^ (rotr 19 x) ^^^ (x >>> 10)

/-- SHA-256 big sigma 0. -/
def bsig0 (x : Nat) : Nat := (rotr 2 x) ^^^ (rotr 13 x) ^^^ (rotr 22 x)

/-- SHA-256 big sigma 1. -/
def bsig1 (x : Nat) : Nat := (rotr 6 x) ^^^ (rotr 11 x) ^^^ (rotr 25 x)

/-- SHA-256 round constants, rows 1-8 of the standard table. -/
def K256r1 : List Nat :=
  [0x428a2f98, 0x71374491, 0xb5c0fbcf, 0xe9b5dba5,
   0x3956c25b, 0x59f111f1, 0x923f82a4, 0xab1c5ed5]

def K256r2 : List Nat :=
  [0xd807aa98, 0x12835b01, 0x243185be, 0x550c7dc3,
   0x72be5d74, 0x80deb1fe, 0x9bdc06a7, 0xc19bf174]

def K256r3 : List Nat :=
  [0xe49b69c1, 0xefbe4786, 0x0fc19dc6, 0x240ca1cc,
   0x2de92c6f, 0x4a7484aa, 0x5cb0a9dc, 0x76f988da]

def K256r4 : List Nat :=
  [0x983e5152, 0xa831c66d, 0xb00327c8, 0xbf597fc7,
   0xc6e00bf3, 0xd5a79147, 0x06ca6351, 0x14292967]

def K256r5 : List Nat :=
  [0x27b70a85, 0x2e1b2138, 0x4d2c6dfc, 0x53380d13,
   0x650a7354, 0x766a0abb, 0x81c2c92e, 0x92722c85]

def K256r6 : List Nat :=
  [0xa2bfe8a1, 0xa81a664b, 0xc24b8b70, 0xc76c51a3,
   0xd192e819, 0xd6990624, 0xf40e3585, 0x106aa070]

def K256r7 : List Nat :=
  [0x19a4c116, 0x1e376c08, 0x2748774c, 0x34b0bcb5,
   0x391c0cb3, 0x4ed8aa4a, 0x5b9cca4f, 0x682e6ff3]

def K256r8 : List Nat :=
  [0x748f82ee, 0x78a5636f, 0x84c87814, 0x8cc70208,
   0x90befffa, 0xa4506ceb, 0xbef9a3f7, 0xc67178f2]

def K256 : List Nat :=
  K256r1 ++ K256r2 ++ K256r3 ++ K256r4 ++ K256r5 ++ K256r6 ++ K256r7 ++ K256r8

/-- SHA-256 hash state: eight 32-bit words. -/
structure Hash8 where
  a : Nat
  b : Nat
  c : Nat
  d : Nat
  e : Nat
  f : Nat
  g : Nat
  h : Nat

/-- SHA-256 initial hash value. -/
def initH : Hash8 :=
  ⟨0x6a09e667, 0xbb67ae85, 0x3c6ef372, 0xa54ff53a,
   0x510e527f, 0x9b05688c, 0x1f83d9ab, 0x5be0cd19⟩

/-- Group four big-endian bytes into one 32-bit word, repeatedly. -/
def bytesToWords : List Nat → List Nat
  | b1 :: b2 :: b3 :: b4 :: rest =>
    (b1 * 16777216 + b2 * 65536 + b3 * 256 + b4) :: bytesToWords rest
  | _ => []

/-- Message-schedule extension: append `fuel` further words. -/
def extendW (fuel : Nat) (w : List Nat) : List Nat :=
  match fuel with
  | 0 => w
  | f + 1 =>
    let i := w.length
    let next := w32 (ssig1 (w.getD (i - 2) 0) + w.getD (i - 7) 0 +
                     ssig0 (w.getD (i - 15) 0) + w.getD (i - 16) 0)
    extendW f (w ++ [next])

/-- One SHA-256 compression round. -/
def roundStep (st : Hash8) (kw : Nat × Nat) : Hash8 :=
  let t1 := w32 (st.h + bsig1 st.e + ((st.e &&& st.f) ^^^ ((0xffffffff ^^^ st.e) &&& st.g))
                 + kw.1 + kw.2)
  let t2 := w32 (bsig0 st.a + ((st.a &&& st.b) ^^^ (st.a &&& st.c) ^^^ (st.b &&& st.c)))
  ⟨w32 (t1 + t2), st.a, st.b, st.c, w32 (st.d + t1), st.e, st.f, st.g⟩

/-- Compress one 64-byte block into the hash state. -/
def compressBlock (st : Hash8) (block : List Nat) : Hash8 :=
  let w := extendW 48 (bytesToWords block)
  let fin := (K256.zip w).foldl roundStep st
  ⟨w32 (st.a + fin.a), w32 (st.b + fin.b), w32 (st.c + fin.c), w32 (st.d + fin.d),
   w32 (st.e + fin.e), w32 (st.f + fin.f), w32 (st.g + fin.g), w32 (st.h + fin.h)⟩

/-- Compress all 64-byte blocks, with explicit fuel (≥ number of blocks). -/
def compressAll (fuel : Nat) (st : Hash8) (bytes : List Nat) : Hash8 :=
  match fuel with
  | 0 => st
  | f + 1 =>
    match bytes with
    | [] => st
    | _ :: _ => compressAll f (compressBlock st (bytes.take 64)) (bytes.drop 64)

/-- Big-endian 8-byte rendering of a length in bits. -/
def lenBytes64 (n : Nat) : List Nat :=
  [n >>> 56 % 256, n >>> 48 % 256, n >>> 40 % 256, n >>> 32 % 256,
   n >>> 24 % 256, n >>> 16 % 256, n >>> 8 % 256, n % 256]

/-- SHA-256 padding for a message of `len` bytes. -/
def padBytes (len : Nat) : List Nat :=
  0x80 :: List.replicate ((119 - len % 64) % 64) 0 ++ lenBytes64 (len * 8)

/-- Big-endian bytes of one 32-bit word. -/
def wordBytes (w : Nat) : List Nat :=
  [w >>> 24 % 256, w >>> 16 % 256, w >>> 8 % 256, w % 256]

/-- The 32 digest bytes of a final hash state. -/
def digestBytes (st : Hash8) : List Nat :=
  wordBytes st.a ++ wordBytes st.b ++ wordBytes st.c ++ wordBytes st.d ++
  wordBytes st.e ++ wordBytes st.f ++ wordBytes st.g ++ wordBytes st.h

/-- SHA-256 of a byte list (Go `sha256.Sum256`). -/
def sha256 (msg : List Nat) : List Nat :=
  let padded := msg ++ padBytes msg.length
  digestBytes (compressAll padded.length initH padded)

/-- The sixteen hex digits, as in Go's `encoding/hex` table. -/
def hexDigits : Str := "0123456789abcdef".toList

/-- Hex digit for a nibble. -/
def hexDigit (n : Nat) : Char := hexDigits.getD n 'x'

/-- Lowercase hex encoding of bytes (Go `hex.EncodeToString`). -/
def hexEncode (bs : List Nat) : Str :=
  (bs.map (fun b => [hexDigit (b / 16), hexDigit (b % 16)])).flatten

/-- HMAC-SHA256 (Go `crypto/hmac` with `sha256.New`). -/
def hmacSHA256 (key data : List Nat) : List Nat :=
  let k0 := if key.length > 64 then sha256 key else key
  let kp := k0 ++ List.replicate (64 - k0.length) 0
  sha256 ((kp.map (fun b => b ^^^ 0x5c)) ++ sha256 ((kp.map (fun b => b ^^^ 0x36)) ++ data))

/-- Source `hashSHA256`: lowercase hex of the SHA-256 of a string. -/
def hashSHA256 (data : Str) : Str := hexEncode (sha256 (strBytes data))

/-- Source `deriveSigningKey`: the four-step HMAC chain. -/
def deriveSigningKey (secret dateStamp region service : Str) : List Nat :=
  let kDate := hmacSHA256 (strBytes ("AWS4".toList ++ secret)) (strBytes dateStamp)
  let kRegion := hmacSHA256 kDate (strBytes region)
  let kService := hmacSHA256 kRegion (strBytes service)
  hmacSHA256 kService (strBytes "aws4_request".toList)

/-! ### HTTP requests and the SigV4 verifier -/

/-- An HTTP request as far as this server observes it.  `headers` stores
lower-case names (Go's `http.Header` canonicalises names; `Get` is
case-insensitive, modelled by lower-casing the looked-up name).  `path` is
the decoded `r.URL.Path`, `escapedPath` is `r.URL.EscapedPath()`, and
`query` holds the decoded query parameters in order. -/
structure Request where
  method : Str
  host : Str
  path : Str
  escapedPath : Str
  query : List (Str × Str)
  headers : List (Str × Str)
  body : Str

/-- Go `r.Header.Get(name)`: first value stored under the canonicalised
name, or the empty string. -/
def headerGet (hs : List (Str × Str)) (name : Str) : Str :=
  match hs.find? (fun kv => kv.1 == lowerStr name) with
  | some kv => kv.2
  | none => []

/-- Go `r.Header.Set(name, v)`: replace all values under the name. -/
def setHeader (hs : List (Str × Str)) (name v : Str) : List (Str × Str) :=
  (lowerStr name, v) :: hs.filter (fun kv => kv.1 != lowerStr name)

/-- Go map read with `""` default; later insertions win, so the last
binding in the association list is taken. -/
def mapGet (l : List (Str × Str)) (k : Str) : Str :=
  match l.reverse.find? (fun kv => kv.1 == k) with
  | some kv => kv.2
  | none => []

/-- The `key=value` fields of the authorization header: Go builds a map from
each `", "`-separated part that `SplitN(part, "=", 2)` cuts in two, trimming
both sides. -/
def fieldsOf (parts : List Str) : List (Str × Str) :=
  parts.filterMap (fun part =>
    match splitN2 '=' part with
    | [k, v] => some (trimSpace k, trimSpace v)
    | _ => none)

/-- Models `url.Values.Encode` for parameters that need no percent-escaping:
keys sorted, joined as `k=v` with `&`. -/
def queryEncode (q : List (Str × Str)) : Str :=
  joinSep "&".toList ((sortLe (fun kv1 kv2 => lexLeB kv1.1 kv2.1) q).map
    (fun kv => kv.1 ++ "=".toList ++ kv.2))

/-- Source `sortQueryString`: sort the already-encoded `k=v` pairs. -/
def sortQueryString (qs : Str) : Str :=
  if qs = [] then []
  else joinSep "&".toList (sortLe lexLeB (splitChar '&' qs))

/-- The canonical headers block: for each signed header name in sorted
order, `name:value\n`, where `host` reads the request's `Host` field and
every other value is the trimmed first header value. -/
def canonicalHeadersFor (r : Request) (sorted : List Str) : Str :=
  (sorted.map (fun h =>
    h ++ ":".toList ++
    (if h = "host".toList then r.host else trimSpace (headerGet r.headers h)) ++
    ['\n'])).flatten

/-- The canonical request of the source's `sigV4Verify`, shared with the
modelled signer. -/
def canonicalRequestFor (r : Request) (signedHeadersStr : Str) : Str :=
  let sorted := sortLe lexLeB (splitChar ';' signedHeadersStr)
  let payloadHash :=
    match headerGet r.headers ("x-amz-content-sha256".toList) with
    | [] => "UNSIGNED-PAYLOAD".toList
    | ph => ph
  let canonicalURI := if r.escapedPath = [] then "/".toList else r.escapedPath
  let canonicalQueryString := sortQueryString (queryEncode r.query)
  joinSep ['\n']
    [r.method, canonicalURI, canonicalQueryString,
     canonicalHeadersFor r sorted, signedHeadersStr, payloadHash]

/-- The string-to-sign of the source's `sigV4Verify`, shared with the
modelled signer. -/
def stringToSignFor (r : Request) (dateStamp credRegion service signedHeadersStr : Str) : Str :=
  joinSep ['\n']
    ["AWS4-HMAC-SHA256".toList,
     headerGet r.headers ("x-amz-date".toList),
     dateStamp ++ "/".toList ++ credRegion ++ "/".toList ++ service ++ "/aws4_request".toList,
     hashSHA256 (canonicalRequestFor r signedHeadersStr)]

/-- The hex signature the verifier re-derives (and a spec-conformant signer
produces) for a request from the credential fields. -/
def sigOf (r : Request) (secretKey dateStamp region service signedHeadersStr : Str) : Str :=
  hexEncode (hmacSHA256 (deriveSigningKey secretKey dateStamp region service)
    (strBytes (stringToSignFor r dateStamp region service signedHeadersStr)))

/-- Source `sigV4Verify`, translated clause by clause. -/
def sigV4Verify (r : Request) (accessKey secretKey region : Str) : Bool :=
  let authHeader := headerGet r.headers ("authorization".toList)
  if authHeader = [] then false
  else if ¬ ("AWS4-HMAC-SHA256 ".toList.isPrefixOf authHeader) then false
  else
    let parts := authHeader.drop ("AWS4-HMAC-SHA256 ".toList.length)
    let fields := fieldsOf (splitSeq ',' ' ' parts)
    let credential := mapGet fields ("Credential".toList)
    let signedHeadersStr := mapGet fields ("SignedHeaders".toList)
    let signature := mapGet fields ("Signature".toList)
    if credential = [] ∨ signedHeadersStr = [] ∨ signature = [] then false
    else
      let credParts := splitChar '/' credential
      if credParts.length ≠ 5 ∨ credParts.getD 0 [] ≠ accessKey then false
      else
        let dateStamp := credParts.getD 1 []
        let credRegion := credParts.getD 2 []
        let service := credParts.getD 3 []
        if credRegion ≠ region then false
        else
          let expectedSig := sigOf r secretKey dateStamp credRegion service signedHeadersStr
          signature == expectedSig

/-- The credential scope string `AK/DATE/REGION/SERVICE/aws4_request`. -/
def credStr (accessKey dateStamp region service : Str) : Str :=
  accessKey ++ "/".toList ++ dateStamp ++ "/".toList ++ region ++ "/".toList ++
  service ++ "/aws4_request".toList

/-- The authorization header value a SigV4 signer emits:
`AWS4-HMAC-SHA256 Credential=<scope>, SignedHeaders=<sh>, Signature=<hex>`. -/
def authHeaderFor (accessKey dateStamp region service signedHeadersStr sig : Str) : Str :=
  "AWS4-HMAC-SHA256 ".toList ++ "Credential=".toList ++
  credStr accessKey dateStamp region service ++ ", ".toList ++
  "SignedHeaders=".toList ++ signedHeadersStr ++ ", ".toList ++
  "Signature=".toList ++ sig

/-- A well-formed credential component: no comma (the field separator), no
slash (the scope separator), no whitespace (trimmed by the parser). -/
def tokOk (s : Str) : Prop := ∀ c ∈ s, c ≠ ',' ∧ c ≠ '/' ∧ goIsSpace c = false

/-- A well-formed `SignedHeaders` value or signature: no comma, no
whitespace. -/
def plainTok (s : Str) : Prop := ∀ c ∈ s, c ≠ ',' ∧ goIsSpace c = false

/-- Modelled from the spec: the SigV4 signing algorithm of §4.1 (the
repository itself contains only the verifier; its test builds signatures the
same way).  Computes the signature over the request's canonical request and
string-to-sign — via the very definitions the verifier uses — and attaches
the `Authorization` header. -/
def signRequest (r : Request) (accessKey secretKey region dateStamp service signedHeadersStr : Str) :
    Request :=
  let sig := sigOf r secretKey dateStamp region service signedHeadersStr
  let auth := authHeaderFor accessKey dateStamp region service signedHeadersStr sig
  { r with headers := setHeader r.headers ("authorization".toList) auth }

/-- A request with the given value installed as its `Authorization` header. -/
def withAuth (r : Request) (v : Str) : Request :=
  { r with headers := setHeader r.headers ("authorization".toList) v }

/-! ### Filesystem model

Paths are lists of name segments (relative to the filesystem root `/`, so
the configured `Dir` is itself a segment list).  The store is a flat list of
files plus the set of existing directories, which models the subset of POSIX
behaviour the handlers exercise. -/

/-- A filesystem path, as a list of name segments. -/
abbrev FPath := List Str

/-- Contents and modification time of one file. -/
structure FileData where
  content : Str
  mtime : Nat
  deriving DecidableEq

/-- The filesystem: a flat file map and the set of directories. -/
structure FS where
  files : List (FPath × FileData)
  dirs : List FPath
  deriving DecidableEq

/-- Look up a file. -/
def lookupF (files : List (FPath × FileData)) (p : FPath) : Option FileData :=
  match files with
  | [] => none
  | q :: rest => if q.1 = p then some q.2 else lookupF rest p

/-- Parent directory (`filepath.Dir`; on the root it yields the root). -/
def parentOf (p : FPath) : FPath := p.dropLast

/-- One step of `filepath.Clean` on an absolute path: empty and `.` segments
vanish, `..` pops the last segment (or stays at the root). -/
def cleanStep (acc : FPath) (s : Str) : FPath :=
  if s = [] ∨ s = ".".toList then acc
  else if s = "..".toList then acc.dropLast
  else acc ++ [s]

/-- `filepath.Clean` of an absolute path given as segments. -/
def cleanAbs (segs : List Str) : FPath := segs.foldl cleanStep []

/-- `filepath.Join(dir, filepath.FromSlash(key))`: append the key's
slash-separated segments to the root directory and clean (on Linux,
`FromSlash` is the identity). -/
def joinPath (dir : FPath) (key : Str) : FPath :=
  cleanAbs (dir ++ splitChar '/' key)

/-- The entries of a directory: every file or directory whose parent is `p`
(Go `os.ReadDir`; only the count is observed by the source). -/
def readDir (fs : FS) (p : FPath) : List FPath :=
  ((fs.files.map Prod.fst) ++ fs.dirs).filter (fun q => parentOf q = p ∧ q ≠ p)

/-- All prefixes of a path, shortest first (including `[]` and the path). -/
def prefixesOf (p : FPath) : List FPath :=
  (List.range (p.length + 1)).map (fun n => p.take n)

/-- Insert the given directories into the directory set, skipping those
already present. -/
def insertDirs (ds : List FPath) (l : List FPath) : List FPath :=
  l.foldl (fun ds q => if q ∈ ds then ds else ds ++ [q]) ds

/-- Go `os.MkdirAll`: create the directory and all missing parents; fails if
a file occupies any component. -/
def mkdirAll (fs : FS) (p : FPath) : Option FS :=
  if (prefixesOf p).any (fun q => (lookupF fs.files q).isSome) then none
  else some { fs with dirs := insertDirs fs.dirs (prefixesOf p) }

/-- Go `os.Create`: truncating create; fails on a directory or a missing
parent directory. -/
def createFile (fs : FS) (p : FPath) (body : Str) (now : Nat) : Option FS :=
  if p ∈ fs.dirs then none
  else if parentOf p ∉ fs.dirs then none
  else some { fs with files := (p, ⟨body, now⟩) :: fs.files.filter (fun q => q.1 ≠ p) }

/-- Outcome of Go `os.Remove`. -/
inductive RemoveResult where
  | ok (fs : FS)
  | errNotExist
  | errOther
  deriving DecidableEq

/-- Go `os.Remove`: removes a file or an empty directory; a populated
directory is a non-`IsNotExist` error; a missing path is `IsNotExist`. -/
def removePath (fs : FS) (p : FPath) : RemoveResult :=
  if (lookupF fs.files p).isSome then
    .ok { fs with files := fs.files.filter (fun q => q.1 ≠ p) }
  else if p ∈ fs.dirs then
    if readDir fs p = [] then .ok { fs with dirs := fs.dirs.filter (fun q => q ≠ p) }
    else .errOther
  else .errNotExist

/-- What `os.Stat` reports. -/
inductive StatR where
  | fileInfo (fd : FileData)
  | dirInfo
  deriving DecidableEq

/-- Go `os.Stat`. -/
def statFS (fs : FS) (p : FPath) : Option StatR :=
  match lookupF fs.files p with
  | some fd => some (.fileInfo fd)
  | none => if p ∈ fs.dirs then some .dirInfo else none

/-! ### S3 protocol handler -/

/-- One row of a listing. -/
structure ObjectInfo where
  key : Str
  lastModified : Str
  etag : Str
  size : Nat
  storageClass : Str
  deriving DecidableEq

/-- The `ListBucketResult` XML document (the two continuation-token fields
carry `omitempty`, so the empty string means the element is absent). -/
structure ListBucketResult where
  name : Str
  pfx : Str
  keyCount : Nat
  maxKeys : Int
  isTruncated : Bool
  contents : List ObjectInfo
  continuationToken : Str
  nextContinuationToken : Str
  deriving DecidableEq

/-- A response body. -/
inductive RespBody where
  | empty
  | content (s : Str)
  | xmlErr (code msg : Str)
  | listing (res : ListBucketResult)
  deriving DecidableEq

/-- An HTTP response. -/
structure Response where
  status : Nat
  headers : List (Str × Str)
  body : RespBody
  deriving DecidableEq

/-- First response-header value under a name. -/
def respHeader (resp : Response) (name : Str) : Str :=
  match resp.headers.find? (fun kv => kv.1 == name) with
  | some kv => kv.2
  | none => []

/-- Source `xmlError`: status plus the XML `Error` document. -/
def xmlErrorResp (status : Nat) (code msg : Str) : Response :=
  { status := status,
    headers := [("Content-Type".toList, "application/xml".toList)],
    body := .xmlErr code msg }

/-- Wrap a double-quoted ETag. -/
def quoteStr (s : Str) : Str := '"' :: s ++ ['"']

/-- Opaque executable model of Go `time.Time.String()` for a modification
time (only its use as hash input is observable). -/
def timeString (t : Nat) : Str := natToStr t

/-- Opaque executable model of `ModTime().UTC().Format(time.RFC3339)`. -/
def timeRFC3339 (t : Nat) : Str := natToStr t

/-- Opaque executable model of `ModTime().UTC().Format(http.TimeFormat)`. -/
def timeHTTP (t : Nat) : Str := natToStr t

/-- Source `putObject`: `MkdirAll` the parent, `Create`, stream the body,
re-read the stored bytes and answer 200 with the quoted first 32 hex
characters of their SHA-256; then trigger the syncer.  Returns the response,
the filesystem after, and whether `syncer.Trigger()` was called. -/
def putObject (dir : FPath) (fs : FS) (key body : Str) (now : Nat) :
    Response × FS × Bool :=
  let fullPath := joinPath dir key
  match mkdirAll fs (parentOf fullPath) with
  | none => (xmlErrorResp 500 "InternalError".toList "mkdir".toList, fs, false)
  | some fs1 =>
    match createFile fs1 fullPath body now with
    | none => (xmlErrorResp 500 "InternalError".toList "create".toList, fs1, false)
    | some fs2 =>
      let stored := match lookupF fs2.files fullPath with
        | some fd => fd.content
        | none => []
      let etag := quoteStr ((hexEncode (sha256 (strBytes stored))).take 32)
      ({ status := 200, headers := [("ETag".toList, etag)], body := .empty }, fs2, true)

/-- Source `getObject`: stat then stream; 404 `NoSuchKey` on a miss.
Reading a directory is modelled as zero streamed bytes with size 0. -/
def getObject (dir : FPath) (fs : FS) (key : Str) : Response :=
  let fullPath := joinPath dir key
  match statFS fs fullPath with
  | none => xmlErrorResp 404 "NoSuchKey".toList "Object not found".toList
  | some (.fileInfo fd) =>
    { status := 200,
      headers := [("Content-Length".toList, natToStr fd.content.length),
                  ("Last-Modified".toList, timeHTTP fd.mtime)],
      body := .content fd.content }
  | some .dirInfo =>
    { status := 200,
      headers := [("Content-Length".toList, natToStr 0),
                  ("Last-Modified".toList, timeHTTP 0)],
      body := .content [] }

/-- Source `headObject`: stat only; the ETag hashes the raw request key
concatenated with the modification time's string rendering. -/
def headObject (dir : FPath) (fs : FS) (key : Str) : Response :=
  let fullPath := joinPath dir key
  match statFS fs fullPath with
  | none => xmlErrorResp 404 "NoSuchKey".toList "Object not found".toList
  | some (.fileInfo fd) =>
    { status := 200,
      headers := [("Content-Length".toList, natToStr fd.content.length),
                  ("ETag".toList, quoteStr (hashSHA256 (key ++ timeString fd.mtime))),
                  ("Last-Modified".toList, timeHTTP fd.mtime)],
      body := .empty }
  | some .dirInfo =>
    { status := 200,
      headers := [("Content-Length".toList, natToStr 0),
                  ("ETag".toList, quoteStr (hashSHA256 (key ++ timeString 0))),
                  ("Last-Modified".toList, timeHTTP 0)],
      body := .empty }

/-- Remove one directory from the directory set (the effect of a successful
`os.Remove` on an empty directory; a no-op when the directory is absent, as
the loop ignores `os.Remove` errors). -/
def removeDir (fs : FS) (cur : FPath) : FS :=
  { fs with dirs := fs.dirs.filter (fun q => q ≠ cur) }

/-- The empty-parent cleanup loop of `deleteObject`, with explicit fuel
(`cur.length + 1` at the call site): while the current directory differs
from the root, stop at the first non-empty directory, otherwise remove it
and climb to its parent.  The fuel bottoms out where Go's loop would spin on
the filesystem root. -/
def cleanupGo (root : FPath) (fuel : Nat) (fs : FS) (cur : FPath) : FS :=
  match fuel with
  | 0 => fs
  | f + 1 =>
    if cur = root then fs
    else if (readDir fs cur).length > 0 then fs
    else cleanupGo root f (removeDir fs cur) (parentOf cur)

/-- Source `deleteObject`: remove the path (a missing file is success, any
other error is 500), clean up empty parents up to — but excluding — the
root, answer 204 and trigger the syncer. -/
def deleteObject (dir : FPath) (fs : FS) (key : Str) : Response × FS × Bool :=
  let fullPath := joinPath dir key
  let afterRemove : Option FS :=
    match removePath fs fullPath with
    | .ok fs1 => some fs1
    | .errNotExist => some fs
    | .errOther => none
  match afterRemove with
  | none => (xmlErrorResp 500 "InternalError".toList "remove".toList, fs, false)
  | some fs1 =>
    let start := parentOf fullPath
    let fs2 := cleanupGo dir (start.length + 1) fs1 start
    ({ status := 204, headers := [], body := .empty }, fs2, true)

/-- Does a relative segment list pass the walk's `.git` directory skip?  A
directory named `.git` is skipped with its whole subtree; a file named
`.git` is not a directory and is visited. -/
def noGitDir (rel : List Str) : Bool := !(rel.dropLast.contains (".git".toList))

/-- Segment-wise lexicographic order on paths; `filepath.Walk` visits
entries of each directory in sorted order, which globally is this order. -/
def pathLeB : FPath → FPath → Bool
  | [], _ => true
  | _ :: _, [] => false
  | s1 :: r1, s2 :: r2 =>
    if s1 = s2 then pathLeB r1 r2
    else lexLeB s1 s2

/-- The regular files `filepath.Walk` visits under `root`, in walk order,
with `.git` directories skipped. -/
def walkFiles (fs : FS) (root : FPath) : List (FPath × FileData) :=
  sortLe (fun e1 e2 => pathLeB e1.1 e2.1)
    (fs.files.filter (fun q => root.isPrefixOf q.1 && noGitDir (q.1.drop root.length)))

/-- Slash-form key of a relative segment list (`filepath.ToSlash` of
`filepath.Rel(root, path)`). -/
def relKey (rel : List Str) : Str := joinSep "/".toList rel

/-- One listing row for a walked file. -/
def mkObjInfo (rel : Str) (fd : FileData) : ObjectInfo :=
  { key := rel,
    lastModified := timeRFC3339 fd.mtime,
    etag := quoteStr (hashSHA256 (rel ++ timeString fd.mtime)),
    size := fd.content.length,
    storageClass := "STANDARD".toList }

/-- The walk callback's accumulation: skip keys failing the prefix filter,
abort the whole walk (`filepath.SkipAll`) once `maxKeys` entries have been
collected, append otherwise.  `n` is the number of entries collected so
far. -/
def walkCollect (pre : Str) (maxKeys : Int) (root : FPath) (n : Nat) :
    List (FPath × FileData) → List ObjectInfo
  | [] => []
  | e :: rest =>
    let rel := relKey (e.1.drop root.length)
    if pre ≠ [] ∧ ¬ (pre.isPrefixOf rel) then walkCollect pre maxKeys root n rest
    else if maxKeys ≤ (n : Int) then []
    else mkObjInfo rel e.2 :: walkCollect pre maxKeys root (n + 1) rest

/-- The prefix filter of the walk as a predicate: an entry is kept when the
prefix is empty or is a prefix of the slash-form relative key. -/
def preMatches (pre rel : Str) : Bool := pre.isEmpty || pre.isPrefixOf rel

/-- The `max-keys` parameter: 1000 unless the query carries a value that
`strconv.Atoi` accepts. -/
def effMaxKeys (v : Str) : Int :=
  if v = [] then 1000
  else match goAtoi v with
    | some n => n
    | none => 1000

/-- Go `r.URL.Query().Get(k)`: first value or empty. -/
def queryGet (q : List (Str × Str)) (k : Str) : Str :=
  match q.find? (fun kv => kv.1 == k) with
  | some kv => kv.2
  | none => []

/-- Source `listObjectsV2`, producing the XML document. -/
def listResult (dir : FPath) (fs : FS) (bucket : Str) (q : List (Str × Str)) :
    ListBucketResult :=
  let pre := queryGet q ("prefix".toList)
  let maxKeys := effMaxKeys (queryGet q ("max-keys".toList))
  let objects := walkCollect pre maxKeys dir 0 (walkFiles fs dir)
  { name := bucket,
    pfx := pre,
    keyCount := objects.length,
    maxKeys := maxKeys,
    isTruncated := false,
    contents := objects,
    continuationToken := [],
    nextContinuationToken := [] }

/-- Source `listObjectsV2` as an HTTP response. -/
def listObjectsV2 (dir : FPath) (fs : FS) (bucket : Str) (q : List (Str × Str)) :
    Response :=
  { status := 200,
    headers := [("Content-Type".toList, "application/xml".toList)],
    body := .listing (listResult dir fs bucket q) }

/-- Handler configuration. -/
structure HandlerCfg where
  dir : FPath
  bucket : Str
  accessKey : Str
  secretKey : Str
  region : Str

/-- The CORS headers set on every response. -/
def corsHeaders : List (Str × Str) :=
  [("Access-Control-Allow-Origin".toList, "*".toList),
   ("Access-Control-Allow-Methods".toList, "GET, PUT, DELETE, HEAD, POST".toList),
   ("Access-Control-Allow-Headers".toList, "*".toList),
   ("Access-Control-Expose-Headers".toList, "ETag, x-amz-request-id, x-amz-id-2".toList)]

/-- Prepend the CORS headers to a response. -/
def withCors (resp : Response) : Response :=
  { resp with headers := corsHeaders ++ resp.headers }

/-- Source `ServeHTTP`: CORS, the `OPTIONS` early return, the auth gate,
route splitting, and the bucket/object dispatch.  Returns the response, the
filesystem after, and whether `syncer.Trigger()` was called. -/
def serveHTTP (cfg : HandlerCfg) (fs : FS) (r : Request) (now : Nat) :
    Response × FS × Bool :=
  if r.method = "OPTIONS".toList then
    ({ status := 200, headers := corsHeaders, body := .empty }, fs, false)
  else if cfg.accessKey ≠ [] ∧ sigV4Verify r cfg.accessKey cfg.secretKey cfg.region = false then
    (withCors (xmlErrorResp 403 "AccessDenied".toList "Invalid signature".toList), fs, false)
  else
    let path := if "/".toList.isPrefixOf r.path then r.path.drop 1 else r.path
    let parts := splitN2 '/' path
    let bucket := parts.getD 0 []
    let key := parts.getD 1 []
    if key = [] then
      if r.method = "GET".toList then
        (withCors (listObjectsV2 cfg.dir fs bucket r.query), fs, false)
      else if r.method = "HEAD".toList then
        if bucket = cfg.bucket then
          (withCors { status := 200, headers := [], body := .empty }, fs, false)
        else
          (withCors (xmlErrorResp 404 "NoSuchBucket".toList "Bucket not found".toList), fs, false)
      else
        (withCors { status := 405, headers := [], body := .empty }, fs, false)
    else
      if r.method = "PUT".toList then
        let out := putObject cfg.dir fs key r.body now
        (withCors out.1, out.2.1, out.2.2)
      else if r.method = "GET".toList then
        (withCors (getObject cfg.dir fs key), fs, false)
      else if r.method = "HEAD".toList then
        (withCors (headObject cfg.dir fs key), fs, false)
      else if r.method = "DELETE".toList then
        let out := deleteObject cfg.dir fs key
        (withCors out.1, out.2.1, out.2.2)
      else
        (withCors { status := 405, headers := [], body := .empty }, fs, false)

/-! ### Sync worker: debounce timer state machine

`Trigger` and timer callbacks serialise on the worker mutex, so a run of the
system is a chronological list of events: `trig t` is a `Trigger()` call at
time `t` (stop the timer in the slot, arm a fresh `time.AfterFunc` timer for
`t + debounce`); `tick t` is the runtime reaching time `t` (every armed
timer whose deadline has passed fires its `doSync` once and disarms). -/

/-- A serialised sync-worker event. -/
inductive SEvent where
  | trig (t : Nat)
  | tick (t : Nat)
  deriving DecidableEq

/-- The time of an event. -/
def SEvent.time : SEvent → Nat
  | .trig t => t
  | .tick t => t

/-- Timer state of the sync worker plus the runtime's armed timers:
`armed` is the list of live `time.AfterFunc` timers (identifier, deadline),
`slot` is the `gs.timer` field, `fired` counts `doSync` executions. -/
structure SyncState where
  armed : List (Nat × Nat)
  slot : Option Nat
  nextId : Nat
  fired : Nat
  deriving DecidableEq

/-- The worker before any trigger. -/
def initSync : SyncState := ⟨[], none, 0, 0⟩

/-- Process one event: `Trigger()` stops the slotted timer and arms a new
one (`gs.timer.Stop(); gs.timer = time.AfterFunc(debounce, doSync)`); a tick
fires every armed timer whose deadline has been reached. -/
def stepEvent (debounce : Nat) (s : SyncState) : SEvent → SyncState
  | .trig t =>
    let armed1 := match s.slot with
      | none => s.armed
      | some i => s.armed.filter (fun p => p.1 ≠ i)
    { armed := armed1 ++ [(s.nextId, t + debounce)],
      slot := some s.nextId, nextId := s.nextId + 1, fired := s.fired }
  | .tick t =>
    { armed := s.armed.filter (fun p => ¬ p.2 ≤ t),
      slot := s.slot, nextId := s.nextId,
      fired := s.fired + (s.armed.filter (fun p => p.2 ≤ t)).length }

/-- Run a list of events. -/
def runEvents (debounce : Nat) (s : SyncState) (events : List SEvent) : SyncState :=
  events.foldl (stepEvent debounce) s

/-- Events are chronological starting no earlier than `t0`. -/
def Chrono (t0 : Nat) : List SEvent → Prop
  | [] => True
  | e :: es => t0 ≤ e.time ∧ Chrono e.time es

/-- The time of the last trigger in the list, `d` if there is none. -/
def lastTrigD (d : Nat) : List SEvent → Nat
  | [] => d
  | .trig t :: es => lastTrigD t es
  | .tick _ :: es => lastTrigD d es

/-- Is there any trigger event? -/
def hasTrig : List SEvent → Bool
  | [] => false
  | .trig _ :: _ => true
  | .tick _ :: es => hasTrig es

/-- Does the run, whose armed deadline starts at `tcD` and moves to `t + D`
with each trigger, contain a tick that reaches the current deadline? -/
def burstFired (D tcD : Nat) : List SEvent → Bool
  | [] => false
  | .trig t :: es => burstFired D (t + D) es
  | .tick u :: es => if tcD ≤ u then true else burstFired D tcD es

/-- The timer slot and the runtime's armed timers agree: there is no armed
timer at all, or exactly the one the slot names. -/
def TimerInv (s : SyncState) : Prop :=
  s.armed = [] ∨ ∃ i d, s.slot = some i ∧ s.armed = [(i, d)]

/-! ### Sync worker: `doSync` control flow

The git operations live in the `go-git` library; their outcomes are supplied
as an environment so that `doSync`'s own control flow — in particular the
nil-repo guard — is the modelled code. -/

/-- Outcomes of the repository operations `doSync` may invoke. -/
structure RepoEnv where
  worktreeOk : Bool
  addOk : Bool
  statusOk : Bool
  isClean : Bool
  commitOk : Bool
  pushOk : Bool

/-- A Go runtime panic (a nil-pointer dereference is the one `doSync` could
commit). -/
inductive GoPanic where
  | nilDeref
  deriving DecidableEq

/-- The sync worker's fields as `doSync` reads them; the repository handle
may be absent. -/
structure GoSyncer where
  repo : Option Unit
  remote : Str
  branch : Str
  user : Str
  email : Str
  deriving DecidableEq

/-- Dereference the repository handle; on `none` this is the nil-pointer
panic the guard in `doSync` exists to prevent. -/
def derefRepo (r : Option Unit) : Except GoPanic Unit :=
  match r with
  | some u => .ok u
  | none => .error .nilDeref

/-- Source `doSync`, translated: log, return early when the repo is nil,
else worktree → add → status → clean check → commit → optional pull+push.
The result is the (unchanged) syncer state and the log lines; a `.error`
would be a panic. -/
def doSyncModel (env : RepoEnv) (gs : GoSyncer) : Except GoPanic (GoSyncer × List Str) :=
  let log0 := ["[git] syncing...".toList]
  if gs.repo.isNone then
    .ok (gs, log0 ++ ["[git] no repo configured, skipping sync".toList])
  else
    match derefRepo gs.repo with
    | .error e => .error e
    | .ok _ =>
      if ¬ env.worktreeOk then .ok (gs, log0 ++ ["[git] worktree failed".toList])
      else if ¬ env.addOk then .ok (gs, log0 ++ ["[git] add failed".toList])
      else if ¬ env.statusOk then .ok (gs, log0 ++ ["[git] status failed".toList])
      else if env.isClean then .ok (gs, log0 ++ ["[git] no changes".toList])
      else if ¬ env.commitOk then .ok (gs, log0 ++ ["[git] commit failed".toList])
      else if gs.remote ≠ [] then
        if ¬ env.pushOk then .ok (gs, log0 ++ ["[git] push failed".toList])
        else .ok (gs, log0 ++ ["[git] pushed".toList])
      else .ok (gs, log0)

/-! ### Concrete instances used by witnesses and counterexamples -/

/-- A handler configuration with authentication enabled. -/
def cex10cfg : HandlerCfg :=
  ⟨["d".toList], "vault".toList, "testkey".toList, "testsecret".toList, "us-east-1".toList⟩

/-- An empty store. -/
def cex10fs : FS := ⟨[], [["d".toList]]⟩

/-- An `OPTIONS` request with no credentials attached. -/
def cex10req : Request :=
  { method := "OPTIONS".toList, host := "h".toList, path := "/vault/test.md".toList,
    escapedPath := "/vault/test.md".toList, query := [], headers := [], body := [] }

/-- A repo environment where every git operation would succeed. -/
def env9 : RepoEnv := ⟨true, true, true, false, true, true⟩

/-- A sync worker constructed with a nil repository handle. -/
def gs9 : GoSyncer := ⟨none, "https://example.com/r.git".toList, "main".toList,
  "Test".toList, "t@t".toList⟩

/-- A store whose root `d/v` lies inside parent `d`. -/
def cex2fs : FS := { files := [], dirs := [["d".toList], ["d".toList, "v".toList]] }

/-- PUT of a `..`-escaping key against `cex2fs`. -/
def cex2out : Response × FS × Bool :=
  putObject ["d".toList, "v".toList] cex2fs ("../x.txt".toList) ("h".toList) 3

/-- A store with one file inside a populated subdirectory of root `r`. -/
def cex5fs : FS :=
  { files := [(["r".toList, "sub".toList, "f.txt".toList], ⟨"x".toList, 1⟩)],
    dirs := [["r".toList], ["r".toList, "sub".toList]] }

/-- DELETE of the key `sub`, which names the populated directory. -/
def cex5out : Response × FS × Bool := deleteObject ["r".toList] cex5fs ("sub".toList)

/-- An empty store rooted at `r`. -/
def wit5fs : FS := { files := [], dirs := [["r".toList]] }

/-- A store with one file under root `r`. -/
def cex7fs : FS :=
  { files := [(["r".toList, "a.txt".toList], ⟨"x".toList, 1⟩)], dirs := [["r".toList]] }

/-- Listing of `cex7fs` with `max-keys=-1`. -/
def cex7res : ListBucketResult :=
  listResult ["r".toList] cex7fs ("vault".toList) [("max-keys".toList, "-1".toList)]

/-- An empty store rooted at `r`, for the PUT/GET witness. -/
def wit3fs : FS := { files := [], dirs := [["r".toList]] }

/-- A store with one file `a.txt` under root `r`, for the HEAD/LIST ETag
witness. -/
def wit8fs : FS :=
  { files := [(["r".toList, "a.txt".toList], ⟨"x".toList, 1⟩)], dirs := [["r".toList]] }

/-- A store whose only file sits in the nested directory `r/a/b`, for the
cleanup witness. -/
def wit6fs : FS :=
  { files := [(["r".toList, "a".toList, "b".toList, "f.txt".toList], ⟨"x".toList, 1⟩)],
    dirs := [["r".toList], ["r".toList, "a".toList], ["r".toList, "a".toList, "b".toList]] }

/-- A bare request carrying one custom header whose value starts with a
space (which both signer and verifier trim). -/
def cex1base : Request :=
  { method := "GET".toList, host := "h".toList, path := "/b".toList,
    escapedPath := "/b".toList, query := [],
    headers := [("x-c".toList, " v".toList)], body := [] }

/-- `cex1base` signed with the configured triple `(AKID, sk, r)`, signing
the single header `x-c`. -/
def cex1signed : Request :=
  signRequest cex1base ("AKID".toList) ("sk".toList) ("r".toList) ("20230101".toList)
    ("s3".toList) ("x-c".toList)

/-- `cex1signed` with one signed byte mutated: the leading space of the
signed header value becomes a tab. -/
def cex1mut : Request :=
  let mutated := cex1signed.headers.map
    (fun kv => if kv.1 = "x-c".toList then (kv.1, "\tv".toList) else kv)
  { cex1signed with headers := mutated }

/-- `cex1base` signed with an access key that contains a slash. -/
def cex1bad : Request :=
  signRequest cex1base ("A/B".toList) ("sk".toList) ("r".toList) ("20230101".toList)
    ("s3".toList) ("x-c".toList)

end Git3

namespace Git3

/-! ### General lemmas -/

/-- The cleanup loop never touches the file map. -/
theorem cleanupGo_files (root : FPath) (fuel : Nat) :
    ∀ (fs : FS) (cur : FPath), (cleanupGo root fuel fs cur).files = fs.files := by
  induction fuel with
  | zero => intro fs cur; rfl
  | succ f ih =>
    intro fs cur
    rw [cleanupGo]
    split
    · rfl
    · split
      · rfl
      · exact ih _ _

/-- Membership in the fold that inserts missing prefixes. -/
theorem mem_insertDirs (l : List FPath) :
    ∀ (ds : List FPath) (q : FPath),
      q ∈ insertDirs ds l ↔ q ∈ ds ∨ q ∈ l := by
  induction l with
  | nil => intro ds q; simp [insertDirs]
  | cons x xs ih =>
    intro ds q
    show q ∈ insertDirs (if x ∈ ds then ds else ds ++ [x]) xs ↔ _
    rw [ih]
    by_cases hx : x ∈ ds
    · rw [if_pos hx]
      simp only [List.mem_cons]
      constructor
      · rintro (h | h) <;> tauto
      · rintro (h | h | h)
        · tauto
        · subst h; tauto
        · tauto
    · rw [if_neg hx]
      simp only [List.mem_append, List.mem_singleton, List.mem_cons]
      tauto

/-- Membership in the set of prefixes. -/
theorem mem_prefixesOf (p q : FPath) :
    q ∈ prefixesOf p ↔ ∃ n, n ≤ p.length ∧ q = p.take n := by
  simp only [prefixesOf, List.mem_map, List.mem_range]
  constructor
  · rintro ⟨n, hn, rfl⟩; exact ⟨n, by omega, rfl⟩
  · rintro ⟨n, hn, rfl⟩; exact ⟨n, by omega, rfl⟩

/-! ### Claim C10 -/

/-- C10: every request with method `OPTIONS`, on any path and under any
configuration (in particular with an access key configured), is answered
200 with exactly the CORS headers, the store untouched and no sync
triggered — signature verification cannot influence the result. -/
theorem claim10_options_bypasses_auth (cfg : HandlerCfg) (fs : FS) (r : Request) (now : Nat)
    (h : r.method = "OPTIONS".toList) :
    serveHTTP cfg fs r now = ({ status := 200, headers := corsHeaders, body := .empty }, fs, false) := by
  simp [serveHTTP, h]

/-- Witness for C10 at a concrete authenticated configuration. -/
theorem claim10_options_bypasses_auth_witness :
    cex10req.method = "OPTIONS".toList ∧
    serveHTTP cex10cfg cex10fs cex10req 0 =
      ({ status := 200, headers := corsHeaders, body := .empty }, cex10fs, false) :=
  ⟨rfl, claim10_options_bypasses_auth cex10cfg cex10fs cex10req 0 rfl⟩

/-! ### Claim C9 -/

/-- C9: a sync worker whose repository handle is nil treats `doSync` as a
logged no-op — no panic (`Except.ok`), the state returned unchanged, exactly
the two log lines emitted, whatever the outcomes of the (never invoked) git
operations would be — and a `Trigger` step never executes `doSync` itself. -/
theorem claim9_nil_repo_noop (env : RepoEnv) (gs : GoSyncer) (h : gs.repo = none) :
    doSyncModel env gs =
      .ok (gs, ["[git] syncing...".toList, "[git] no repo configured, skipping sync".toList]) ∧
    (∀ (debounce : Nat) (s : SyncState) (t : Nat),
      (stepEvent debounce s (.trig t)).fired = s.fired) := by
  constructor
  · simp [doSyncModel, h]
  · intro debounce s t; rfl

/-- Witness for C9 at a concrete nil-repo worker. -/
theorem claim9_nil_repo_noop_witness :
    gs9.repo = none ∧
    doSyncModel env9 gs9 =
      .ok (gs9, ["[git] syncing...".toList, "[git] no repo configured, skipping sync".toList]) :=
  ⟨rfl, (claim9_nil_repo_noop env9 gs9 rfl).1⟩

/-! ### Claim C2 -/

/-- C2: the code does not reject traversal.  A PUT whose key escapes the
root via `..` is answered 200 (not `AccessDenied`) and writes the file
outside the root directory `d/v`. -/
theorem claim2_traversal_accepted :
    cex2out.1.status = 200 ∧
    lookupF cex2out.2.1.files ["d".toList, "x.txt".toList] = some ⟨"h".toList, 3⟩ ∧
    ¬ (["d".toList, "v".toList].isPrefixOf ["d".toList, "x.txt".toList] = true) := by
  decide

/-! ### Claim C5 -/

/-- C5 counterexample: a DELETE whose key names a non-empty directory is
answered 500 and does not trigger the syncer, refuting "for every key,
DELETE returns 204 … and calls syncer.Trigger() afterward". -/
theorem claim5_counterexample :
    cex5out.1.status = 500 ∧ cex5out.2.2 = false := by
  decide

/-- C5 as amended: for every key whose resolved path is not a non-empty
directory, DELETE returns 204 whether or not an object existed there,
triggers the syncer on both paths, and on the missing path leaves the file
map unchanged. -/
theorem claim5_delete_idempotent (dir : FPath) (fs : FS) (key : Str)
    (h : ¬ (joinPath dir key ∈ fs.dirs ∧ readDir fs (joinPath dir key) ≠ [])) :
    (deleteObject dir fs key).1.status = 204 ∧
    (deleteObject dir fs key).2.2 = true ∧
    (lookupF fs.files (joinPath dir key) = none →
      (deleteObject dir fs key).2.1.files = fs.files) := by
  cases ho : lookupF fs.files (joinPath dir key) with
  | some fd =>
    refine ⟨?_, ?_, fun hn => absurd hn (by simp)⟩ <;>
      simp [deleteObject, removePath, ho, cleanupGo_files]
  | none =>
    by_cases hd : joinPath dir key ∈ fs.dirs
    · have hre : readDir fs (joinPath dir key) = [] := by
        by_contra hne
        exact h ⟨hd, hne⟩
      refine ⟨?_, ?_, ?_⟩ <;>
        simp [deleteObject, removePath, ho, hd, hre, cleanupGo_files]
    · refine ⟨?_, ?_, ?_⟩ <;>
        simp [deleteObject, removePath, ho, hd, cleanupGo_files]

/-- Witness for the amended C5 at a concrete missing key. -/
theorem claim5_delete_idempotent_witness :
    (¬ (joinPath [["r".toList]].flatten ("nope.txt".toList) ∈ wit5fs.dirs ∧
        readDir wit5fs (joinPath [["r".toList]].flatten ("nope.txt".toList)) ≠ [])) ∧
    ((deleteObject [["r".toList]].flatten wit5fs ("nope.txt".toList)).1.status = 204 ∧
     (deleteObject [["r".toList]].flatten wit5fs ("nope.txt".toList)).2.2 = true ∧
     (lookupF wit5fs.files (joinPath [["r".toList]].flatten ("nope.txt".toList)) = none →
       (deleteObject [["r".toList]].flatten wit5fs ("nope.txt".toList)).2.1.files = wit5fs.files)) :=
  ⟨by decide, claim5_delete_idempotent [["r".toList]].flatten wit5fs ("nope.txt".toList) (by decide)⟩

/-! ### Claim C7 -/

/-- The collection loop of the walk equals filter-then-take-then-render. -/
theorem walkCollect_eq_take (pre : Str) (mk : Int) (root : FPath) :
    ∀ (l : List (FPath × FileData)) (n : Nat),
      walkCollect pre mk root n l =
        ((l.filter (fun e => preMatches pre (relKey (e.1.drop root.length)))).take
          (mk.toNat - n)).map (fun e => mkObjInfo (relKey (e.1.drop root.length)) e.2) := by
  intro l
  induction l with
  | nil => intro n; simp [walkCollect]
  | cons e rest ih =>
    intro n
    rw [walkCollect]
    by_cases hskip : pre ≠ [] ∧ ¬ (pre.isPrefixOf (relKey (e.1.drop root.length)) = true)
    · have hm : preMatches pre (relKey (e.1.drop root.length)) = false := by
        rcases hskip with ⟨h1, h2⟩
        simp only [preMatches, Bool.or_eq_false_iff]
        constructor
        · cases pre with
          | nil => exact absurd rfl h1
          | cons c cs => rfl
        · exact Bool.eq_false_iff.mpr h2
      rw [if_pos hskip, ih n, List.filter_cons, hm]
      simp
    · have hm : preMatches pre (relKey (e.1.drop root.length)) = true := by
        by_cases hp : pre = []
        · subst hp; rfl
        · rcases not_and_or.mp hskip with hc | hc
          · exact absurd hp (by simpa using hc)
          · have hpp : pre.isPrefixOf (relKey (e.1.drop root.length)) = true := by
              simpa using hc
            simp [preMatches, hpp]
      rw [if_neg hskip, List.filter_cons, hm]
      by_cases hfull : mk ≤ (n : Int)
      · have h0 : mk.toNat - n = 0 := by omega
        rw [if_pos hfull, h0]
        simp
      · have h1 : mk.toNat - n = (mk.toNat - (n + 1)) + 1 := by omega
        rw [if_neg hfull, ih (n + 1), h1]
        simp

/-- C7 counterexample: with `max-keys=-1` (accepted by `strconv.Atoi`) the
listing returns 0 entries, which is not "at most maxKeys entries" read as an
integer bound. -/
theorem claim7_counterexample :
    ¬ ((cex7res.contents.length : Int) ≤ cex7res.maxKeys) := by
  decide

/-- C7 as amended: every listing holds at most `max(maxKeys, 0)` entries —
precisely, the contents are the prefix-filtered walk truncated to
`maxKeys.toNat` entries, so the walk stops enumerating once that many have
been collected — while `IsTruncated` is always false and both continuation
tokens are always absent. -/
theorem claim7_list_truncation (dir : FPath) (fs : FS) (bucket : Str) (q : List (Str × Str)) :
    (listResult dir fs bucket q).contents.length ≤ (listResult dir fs bucket q).maxKeys.toNat ∧
    (listResult dir fs bucket q).contents =
      List.map (fun e => mkObjInfo (relKey (e.1.drop dir.length)) e.2)
        (List.take ((listResult dir fs bucket q).maxKeys.toNat)
          (List.filter
            (fun e => preMatches (queryGet q ("prefix".toList)) (relKey (e.1.drop dir.length)))
            (walkFiles fs dir))) ∧
    (listResult dir fs bucket q).isTruncated = false ∧
    (listResult dir fs bucket q).continuationToken = [] ∧
    (listResult dir fs bucket q).nextContinuationToken = [] := by
  have hC : (listResult dir fs bucket q).contents =
      walkCollect (queryGet q ("prefix".toList))
        (effMaxKeys (queryGet q ("max-keys".toList))) dir 0 (walkFiles fs dir) := rfl
  have hM : (listResult dir fs bucket q).maxKeys =
      effMaxKeys (queryGet q ("max-keys".toList)) := rfl
  refine ⟨?_, ?_, rfl, rfl, rfl⟩
  · rw [hC, hM, walkCollect_eq_take]
    simp only [List.length_map, List.length_take, Nat.sub_zero]
    omega
  · rw [hC, hM, walkCollect_eq_take]
    simp

/-! ### Hash output lemmas -/

/-- A SHA-256 digest has exactly 32 bytes. -/
theorem sha256_length (m : List Nat) : (sha256 m).length = 32 := by
  simp [sha256, digestBytes, wordBytes]

/-- Every digest byte is below 256. -/
theorem wordBytes_lt (w : Nat) : ∀ b ∈ wordBytes w, b < 256 := by
  intro b hb
  simp only [wordBytes, List.mem_cons, List.not_mem_nil, or_false] at hb
  rcases hb with h | h | h | h <;> subst h <;> exact Nat.mod_lt _ (by norm_num)

/-- Every SHA-256 digest byte is below 256. -/
theorem sha256_lt (m : List Nat) : ∀ b ∈ sha256 m, b < 256 := by
  intro b hb
  simp only [sha256, digestBytes, List.mem_append] at hb
  rcases hb with ((((((h | h) | h) | h) | h) | h) | h) | h <;> exact wordBytes_lt _ _ h

/-- Hex encoding doubles the length. -/
theorem hexEncode_length (bs : List Nat) : (hexEncode bs).length = 2 * bs.length := by
  induction bs with
  | nil => rfl
  | cons b rest ih =>
    simp only [hexEncode, List.map_cons, List.flatten_cons] at ih ⊢
    simp [ih]
    omega

/-- A hex digit of a nibble is one of the sixteen digit characters. -/
theorem hexDigit_mem (n : Nat) (h : n < 16) : hexDigit n ∈ hexDigits := by
  have hl : n < hexDigits.length := by
    have : hexDigits.length = 16 := by decide
    omega
  rw [hexDigit, List.getD_eq_getElem _ _ hl]
  exact List.getElem_mem hl

/-- Hex encoding of genuine bytes yields only hex digit characters. -/
theorem hexEncode_mem (bs : List Nat) (hb : ∀ b ∈ bs, b < 256) :
    ∀ c ∈ hexEncode bs, c ∈ hexDigits := by
  induction bs with
  | nil => intro c hc; cases hc
  | cons b rest ih =>
    intro c hc
    simp only [hexEncode, List.map_cons, List.flatten_cons, List.mem_append,
      List.mem_cons, List.not_mem_nil, or_false] at hc
    have hblt : b < 256 := hb b (List.mem_cons_self b rest)
    rcases hc with (h | h) | h
    · subst h; exact hexDigit_mem _ (by omega)
    · subst h; exact hexDigit_mem _ (by omega)
    · exact ih (fun x hx => hb x (List.mem_cons_of_mem _ hx)) c (by
        simpa [hexEncode] using h)

/-- `hashSHA256` always renders 64 characters. -/
theorem hashSHA256_length (s : Str) : (hashSHA256 s).length = 64 := by
  simp [hashSHA256, hexEncode_length, sha256_length]

/-- `hashSHA256` renders only lowercase hex digit characters. -/
theorem hashSHA256_mem (s : Str) : ∀ c ∈ hashSHA256 s, c ∈ hexDigits := by
  intro c hc
  exact hexEncode_mem _ (sha256_lt _) c hc

/-! ### Claim C3 -/

/-- Every strict prefix of the resolved path is free of files, so `MkdirAll`
of the parent succeeds.  Helper fact shaped for the `putObject` proof. -/
theorem mkdirAll_parent_some (dir : FPath) (key : Str) (fs : FS)
    (hne : joinPath dir key ≠ [])
    (hnf : ∀ m, m < (joinPath dir key).length →
      lookupF fs.files ((joinPath dir key).take m) = none) :
    mkdirAll fs (parentOf (joinPath dir key)) =
      some { fs with dirs := insertDirs fs.dirs (prefixesOf (parentOf (joinPath dir key))) } := by
  have hlen : 1 ≤ (joinPath dir key).length := by
    cases hp : joinPath dir key with
    | nil => exact absurd hp hne
    | cons a l => simp [hp]
  have hany : ((prefixesOf (parentOf (joinPath dir key))).any
      (fun q => (lookupF fs.files q).isSome)) = false := by
    rw [List.any_eq_false]
    intro q hq
    rw [mem_prefixesOf] at hq
    obtain ⟨n, hn, rfl⟩ := hq
    have hplen : (parentOf (joinPath dir key)).length = (joinPath dir key).length - 1 := by
      simp [parentOf]
    have htk : (parentOf (joinPath dir key)).take n = (joinPath dir key).take n := by
      rw [parentOf, List.dropLast_eq_take, List.take_take]
      congr 1
      omega
    rw [htk, hnf n (by omega)]
    simp
  rw [mkdirAll, hany]
  simp

/-- C3: after a successful PUT (key resolving to a creatable path: non-root,
not a directory, no file blocking an ancestor), the PUT response is 200 with
ETag exactly the double-quoted first 32 lowercase hex characters of the
SHA-256 of the body, the syncer is triggered, and a GET of the same key
returns 200 with exactly the stored body and Content-Length equal to its
length. -/
theorem claim3_put_get_roundtrip (dir : FPath) (fs : FS) (key body : Str) (now : Nat)
    (hne : joinPath dir key ≠ [])
    (hnd : joinPath dir key ∉ fs.dirs)
    (hnf : ∀ m, m < (joinPath dir key).length →
      lookupF fs.files ((joinPath dir key).take m) = none) :
    (putObject dir fs key body now).1 =
      { status := 200,
        headers := [("ETag".toList, quoteStr ((hexEncode (sha256 (strBytes body))).take 32))],
        body := .empty } ∧
    (putObject dir fs key body now).2.2 = true ∧
    getObject dir (putObject dir fs key body now).2.1 key =
      { status := 200,
        headers := [("Content-Length".toList, natToStr body.length),
                    ("Last-Modified".toList, timeHTTP now)],
        body := .content body } := by
  have hmk := mkdirAll_parent_some dir key fs hne hnf
  set p := joinPath dir key with hp
  set fs1 : FS := { fs with dirs := insertDirs fs.dirs (prefixesOf (parentOf p)) } with hfs1
  have hpd1 : p ∉ fs1.dirs := by
    rw [hfs1]
    intro hmem
    rcases (mem_insertDirs _ _ _).mp hmem with hin | hin
    · exact hnd hin
    · rw [mem_prefixesOf] at hin
      obtain ⟨n, hn, heq⟩ := hin
      have h1 : p.length ≤ (parentOf p).length := by
        conv_lhs => rw [heq]
        simp
      have h2 : (parentOf p).length = p.length - 1 := by simp [parentOf]
      have hlen : 1 ≤ p.length := by
        cases hc : p with
        | nil => exact absurd hc hne
        | cons a l => simp [hc]
      omega
  have hpp1 : parentOf p ∈ fs1.dirs := by
    rw [hfs1]
    apply (mem_insertDirs _ _ _).mpr
    right
    rw [mem_prefixesOf]
    exact ⟨(parentOf p).length, le_refl _, (List.take_length _).symm⟩
  have hcr : createFile fs1 p body now =
      some { fs1 with files := (p, ⟨body, now⟩) :: fs1.files.filter (fun q => q.1 ≠ p) } := by
    rw [createFile, if_neg hpd1, if_neg (by simp [hpp1])]
  set fs2 : FS := { fs1 with files := (p, ⟨body, now⟩) :: fs1.files.filter (fun q => q.1 ≠ p) }
    with hfs2
  have hlk : lookupF fs2.files p = some ⟨body, now⟩ := by
    rw [hfs2]
    simp [lookupF]
  have hput : putObject dir fs key body now =
      ({ status := 200,
         headers := [("ETag".toList, quoteStr ((hexEncode (sha256 (strBytes body))).take 32))],
         body := .empty }, fs2, true) := by
    rw [putObject, ← hp, hmk]
    simp [hcr, lookupF]
  refine ⟨by rw [hput], by rw [hput], ?_⟩
  rw [hput]
  show getObject dir fs2 key = _
  rw [getObject, ← hp]
  rw [statFS, hlk]

/-- Witness for C3: PUT then GET of `notes/test.md` with body `hello world`
in an empty store. -/
theorem claim3_put_get_roundtrip_witness :
    (joinPath [["r".toList]].flatten ("notes/test.md".toList) ≠ [] ∧
     joinPath [["r".toList]].flatten ("notes/test.md".toList) ∉ wit3fs.dirs ∧
     (∀ m, m < (joinPath [["r".toList]].flatten ("notes/test.md".toList)).length →
       lookupF wit3fs.files ((joinPath [["r".toList]].flatten ("notes/test.md".toList)).take m) =
         none)) ∧
    ((putObject [["r".toList]].flatten wit3fs ("notes/test.md".toList) ("hello world".toList) 7).1 =
      { status := 200,
        headers := [("ETag".toList,
          quoteStr ((hexEncode (sha256 (strBytes ("hello world".toList)))).take 32))],
        body := .empty } ∧
     (putObject [["r".toList]].flatten wit3fs ("notes/test.md".toList) ("hello world".toList) 7).2.2 =
       true ∧
     getObject [["r".toList]].flatten
        (putObject [["r".toList]].flatten wit3fs ("notes/test.md".toList)
          ("hello world".toList) 7).2.1 ("notes/test.md".toList) =
      { status := 200,
        headers := [("Content-Length".toList, natToStr ("hello world".toList).length),
                    ("Last-Modified".toList, timeHTTP 7)],
        body := .content ("hello world".toList) }) :=
  ⟨⟨by decide, by decide, by decide⟩,
    claim3_put_get_roundtrip [["r".toList]].flatten wit3fs ("notes/test.md".toList)
      ("hello world".toList) 7 (by decide) (by decide) (by decide)⟩

/-! ### Claim C8 -/

/-- C8: for an existing object, HEAD answers 200 whose ETag is the
double-quoted full SHA-256 hex (64 lowercase hex characters) of the key
concatenated with the modification time's string rendering; and every row a
listing returns carries the ETag derived the same way from its slash-form
relative key and its file's modification time. -/
theorem claim8_metadata_etag (dir : FPath) (fs : FS) (key bucket : Str)
    (q : List (Str × Str)) (fd : FileData)
    (h : lookupF fs.files (joinPath dir key) = some fd) :
    headObject dir fs key =
      { status := 200,
        headers := [("Content-Length".toList, natToStr fd.content.length),
                    ("ETag".toList, quoteStr (hashSHA256 (key ++ timeString fd.mtime))),
                    ("Last-Modified".toList, timeHTTP fd.mtime)],
        body := .empty } ∧
    (hashSHA256 (key ++ timeString fd.mtime)).length = 64 ∧
    (∀ c ∈ hashSHA256 (key ++ timeString fd.mtime), c ∈ hexDigits) ∧
    (∀ o ∈ (listResult dir fs bucket q).contents, ∃ e, e ∈ walkFiles fs dir ∧
        o.key = relKey (e.1.drop dir.length) ∧
        o.etag = quoteStr (hashSHA256 (o.key ++ timeString e.2.mtime)) ∧
        (hashSHA256 (o.key ++ timeString e.2.mtime)).length = 64) := by
  refine ⟨?_, hashSHA256_length _, hashSHA256_mem _, ?_⟩
  · rw [headObject, statFS, h]
  · intro o ho
    have hC : (listResult dir fs bucket q).contents =
        walkCollect (queryGet q ("prefix".toList))
          (effMaxKeys (queryGet q ("max-keys".toList))) dir 0 (walkFiles fs dir) := rfl
    rw [hC, walkCollect_eq_take] at ho
    rw [List.mem_map] at ho
    obtain ⟨e, he, rfl⟩ := ho
    have hew : e ∈ walkFiles fs dir :=
      List.mem_of_mem_filter (List.mem_of_mem_take he)
    exact ⟨e, hew, rfl, rfl, hashSHA256_length _⟩

/-- Witness for C8 at a store with one file. -/
theorem claim8_metadata_etag_witness :
    lookupF wit8fs.files (joinPath [["r".toList]].flatten ("a.txt".toList)) =
      some ⟨"x".toList, 1⟩ ∧
    headObject [["r".toList]].flatten wit8fs ("a.txt".toList) =
      { status := 200,
        headers := [("Content-Length".toList, natToStr (("x".toList : Str)).length),
                    ("ETag".toList,
                      quoteStr (hashSHA256 ("a.txt".toList ++ timeString 1))),
                    ("Last-Modified".toList, timeHTTP 1)],
        body := .empty } :=
  ⟨by decide,
    (claim8_metadata_etag [["r".toList]].flatten wit8fs ("a.txt".toList) ("vault".toList)
      [] ⟨"x".toList, 1⟩ (by decide)).1⟩

/-! ### Claim C4 -/

/-- Chronology can be weakened to an earlier start time. -/
theorem chrono_weaken {t0' t0 : Nat} {es : List SEvent} (hle : t0' ≤ t0)
    (h : Chrono t0 es) : Chrono t0' es := by
  cases es with
  | nil => trivial
  | cons e rest => exact ⟨le_trans hle h.1, h.2⟩

/-- Every event in a chronological run happens at or after the start time. -/
theorem chrono_mem_ge {t0 : Nat} {es : List SEvent} (h : Chrono t0 es) :
    ∀ e ∈ es, t0 ≤ e.time := by
  induction es generalizing t0 with
  | nil => intro e he; cases he
  | cons x rest ih =>
    intro e he
    rcases List.mem_cons.mp he with rfl | hm
    · exact h.1
    · exact le_trans h.1 (ih h.2 e hm)

/-- The last-trigger time never drops below the default in a chronological
run starting at or after it. -/
theorem lastTrigD_ge {es : List SEvent} : ∀ {d t0 : Nat},
    Chrono t0 es → d ≤ t0 → d ≤ lastTrigD d es := by
  induction es with
  | nil => intro d t0 _ _; exact le_refl d
  | cons e rest ih =>
    intro d t0 h hd
    cases e with
    | trig t =>
      show d ≤ lastTrigD t rest
      exact le_trans (le_trans hd h.1) (ih h.2 (le_refl t))
    | tick u =>
      show d ≤ lastTrigD d rest
      exact ih h.2 (le_trans hd h.1)

/-- A trigger-free run from a state with no armed timer fires nothing and
arms nothing. -/
theorem no_trig_run {es : List SEvent} : ∀ {D : Nat} {s : SyncState},
    (∀ t, SEvent.trig t ∈ es → False) → s.armed = [] →
    (runEvents D s es).fired = s.fired ∧ (runEvents D s es).armed = [] := by
  induction es with
  | nil => intro D s _ ha; exact ⟨rfl, ha⟩
  | cons e rest ih =>
    intro D s hnt ha
    cases e with
    | trig t => exact absurd (List.mem_cons_self _ _) (fun hm => hnt t hm)
    | tick u =>
      have hstep : stepEvent D s (.tick u) =
          { armed := [], slot := s.slot, nextId := s.nextId, fired := s.fired } := by
        simp [stepEvent, ha]
      have hrw : runEvents D s (SEvent.tick u :: rest) =
          runEvents D { armed := [], slot := s.slot, nextId := s.nextId, fired := s.fired } rest := by
        show runEvents D (stepEvent D s (.tick u)) rest = _
        rw [hstep]
      rw [hrw]
      exact ih (fun t hm => hnt t (List.mem_cons_of_mem _ hm)) rfl

/-- Central burst lemma: starting from a single armed timer whose deadline
tracks the last trigger time `tc`, a chronological run whose triggers all
fall inside the debounce window of the first trigger `t1` fires `doSync`
exactly once if some tick reaches the moving deadline, and never
otherwise. -/
theorem burst_run {es : List SEvent} : ∀ {D tc t1 i n : Nat},
    Chrono tc es → t1 ≤ tc → (∀ t, SEvent.trig t ∈ es → t < t1 + D) → tc < t1 + D →
    (runEvents D ⟨[(i, tc + D)], some i, n, 0⟩ es).fired =
      (if burstFired D (tc + D) es = true then 1 else 0) := by
  induction es with
  | nil =>
    intro D tc t1 i n _ _ _ _
    simp [runEvents, burstFired]
  | cons e rest ih =>
    intro D tc t1 i n hch hle hwin htc
    cases e with
    | trig t =>
      have hstep : stepEvent D ⟨[(i, tc + D)], some i, n, 0⟩ (.trig t) =
          ⟨[(n, t + D)], some n, n + 1, 0⟩ := by
        simp [stepEvent]
      have ht1t : t1 ≤ t := le_trans hle hch.1
      have htwin : t < t1 + D := hwin t (List.mem_cons_self _ _)
      show (runEvents D (stepEvent D ⟨[(i, tc + D)], some i, n, 0⟩ (.trig t)) rest).fired = _
      rw [hstep]
      exact ih hch.2 ht1t (fun t' hm => hwin t' (List.mem_cons_of_mem _ hm)) htwin
    | tick u =>
      by_cases hu : tc + D ≤ u
      · have hstep : stepEvent D ⟨[(i, tc + D)], some i, n, 0⟩ (.tick u) =
            { armed := [], slot := some i, nextId := n, fired := 1 } := by
          simp [stepEvent, hu]
        have hnt : ∀ t, SEvent.trig t ∈ rest → False := by
          intro t hm
          have h1 : u ≤ t := chrono_mem_ge hch.2 _ hm
          have h2 : t < t1 + D := hwin t (List.mem_cons_of_mem _ hm)
          omega
        show (runEvents D (stepEvent D ⟨[(i, tc + D)], some i, n, 0⟩ (.tick u)) rest).fired = _
        rw [hstep]
        have hrun := no_trig_run (D := D)
          (s := { armed := [], slot := some i, nextId := n, fired := 1 }) hnt rfl
        rw [hrun.1]
        have hbf : burstFired D (tc + D) (SEvent.tick u :: rest) = true := by
          show (if tc + D ≤ u then true else burstFired D (tc + D) rest) = true
          rw [if_pos hu]
        rw [hbf]
        rfl
      · have hstep : stepEvent D ⟨[(i, tc + D)], some i, n, 0⟩ (.tick u) =
            ⟨[(i, tc + D)], some i, n, 0⟩ := by
          simp [stepEvent, hu]; omega
        show (runEvents D (stepEvent D ⟨[(i, tc + D)], some i, n, 0⟩ (.tick u)) rest).fired = _
        rw [hstep]
        have hch' : Chrono tc rest := chrono_weaken hch.1 hch.2
        have hbf : burstFired D (tc + D) (SEvent.tick u :: rest) =
            burstFired D (tc + D) rest := by
          show (if tc + D ≤ u then true else burstFired D (tc + D) rest) = _
          rw [if_neg hu]
        rw [hbf]
        exact ih hch' hle (fun t' hm => hwin t' (List.mem_cons_of_mem _ hm)) htc

/-- A tick at or after the final deadline makes the burst fire. -/
theorem burstFired_of_tick {es : List SEvent} : ∀ {D tc t1 : Nat},
    Chrono tc es → t1 ≤ tc → (∀ t, SEvent.trig t ∈ es → t < t1 + D) → tc < t1 + D →
    (∃ u, SEvent.tick u ∈ es ∧ lastTrigD tc es + D ≤ u) →
    burstFired D (tc + D) es = true := by
  induction es with
  | nil =>
    intro D tc t1 hch _ _ _ hex
    obtain ⟨u, hm, _⟩ := hex
    cases hm
  | cons e rest ih =>
    intro D tc t1 hch hle hwin htc hex
    cases e with
    | trig t =>
      obtain ⟨u, hm, hd⟩ := hex
      have hm' : SEvent.tick u ∈ rest := by
        rcases List.mem_cons.mp hm with heq | h
        · cases heq
        · exact h
      show burstFired D (t + D) rest = true
      refine ih hch.2 (le_trans hle hch.1) (fun t' hm2 => hwin t' (List.mem_cons_of_mem _ hm2))
        (hwin t (List.mem_cons_self _ _)) ⟨u, hm', ?_⟩
      exact hd
    | tick v =>
      by_cases hv : tc + D ≤ v
      · show (if tc + D ≤ v then true else burstFired D (tc + D) rest) = true
        rw [if_pos hv]
      · obtain ⟨u, hm, hd⟩ := hex
        have hm' : SEvent.tick u ∈ rest := by
          rcases List.mem_cons.mp hm with heq | h
          · cases heq
            have hge : tc ≤ lastTrigD tc rest := lastTrigD_ge hch.2 hch.1
            have hlast : lastTrigD tc (SEvent.tick v :: rest) = lastTrigD tc rest := rfl
            rw [hlast] at hd
            omega
          · exact h
        show (if tc + D ≤ v then true else burstFired D (tc + D) rest) = true
        rw [if_neg hv]
        exact ih (chrono_weaken hch.1 hch.2) hle
          (fun t' hm2 => hwin t' (List.mem_cons_of_mem _ hm2)) htc ⟨u, hm', hd⟩

/-- One event step preserves the timer invariant. -/
theorem timerInv_step {D : Nat} {s : SyncState} (h : TimerInv s) (e : SEvent) :
    TimerInv (stepEvent D s e) := by
  cases e with
  | trig t =>
    right
    refine ⟨s.nextId, t + D, rfl, ?_⟩
    show (match s.slot with
      | none => s.armed
      | some i => s.armed.filter (fun p => p.1 ≠ i)) ++ [(s.nextId, t + D)] = _
    rcases h with ha | ⟨i, d, hs, ha⟩
    · rw [ha]
      cases s.slot <;> simp
    · rw [hs, ha]
      simp
  | tick u =>
    rcases h with ha | ⟨i, d, hs, ha⟩
    · left
      show s.armed.filter _ = []
      rw [ha]
      rfl
    · show TimerInv ⟨s.armed.filter _, s.slot, _, _⟩
      rw [ha]
      by_cases hd : d ≤ u
      · left
        simp [hd]
      · right
        exact ⟨i, d, hs, by simp [hd]; omega⟩

/-- Every run from the initial state keeps the timer invariant. -/
theorem timerInv_run (D : Nat) (es : List SEvent) : TimerInv (runEvents D initSync es) := by
  have h : ∀ s, TimerInv s → TimerInv (runEvents D s es) := by
    induction es with
    | nil => intro s hs; exact hs
    | cons e rest ih =>
      intro s hs
      exact ih _ (timerInv_step hs e)
  exact h initSync (Or.inl rfl)

/-- C4: in every serialised run of the worker (i) at most one `doSync`
timer is armed at any instant, (ii) a `Trigger()` leaves exactly one armed
timer — it cancels the slotted one and installs exactly one — and (iii) a
burst of `N ≥ 1` triggers inside one debounce window of its first trigger,
followed chronologically by a tick at or after the last trigger's deadline,
executes `doSync` exactly once. -/
theorem claim4_debounce_single_timer :
    (∀ (D : Nat) (es : List SEvent), (runEvents D initSync es).armed.length ≤ 1) ∧
    (∀ (D : Nat) (es : List SEvent) (t : Nat),
      (runEvents D initSync (es ++ [SEvent.trig t])).armed.length = 1) ∧
    (∀ (D t1 : Nat) (es : List SEvent),
      0 < D →
      Chrono t1 es →
      (∀ t, SEvent.trig t ∈ es → t < t1 + D) →
      (∃ u, SEvent.tick u ∈ es ∧ lastTrigD t1 es + D ≤ u) →
      (runEvents D initSync (SEvent.trig t1 :: es)).fired = 1) := by
  refine ⟨?_, ?_, ?_⟩
  · intro D es
    rcases timerInv_run D es with h | ⟨i, d, _, h⟩ <;> rw [h] <;> simp
  · intro D es t
    have hrun : runEvents D initSync (es ++ [SEvent.trig t]) =
        stepEvent D (runEvents D initSync es) (SEvent.trig t) := by
      simp [runEvents]
    rw [hrun]
    rcases timerInv_run D es with h | ⟨i, d, hs, h⟩
    · show ((match (runEvents D initSync es).slot with
        | none => (runEvents D initSync es).armed
        | some i => (runEvents D initSync es).armed.filter (fun p => p.1 ≠ i)) ++
          [((runEvents D initSync es).nextId, t + D)]).length = 1
      rw [h]
      cases (runEvents D initSync es).slot <;> simp
    · show ((match (runEvents D initSync es).slot with
        | none => (runEvents D initSync es).armed
        | some i => (runEvents D initSync es).armed.filter (fun p => p.1 ≠ i)) ++
          [((runEvents D initSync es).nextId, t + D)]).length = 1
      rw [hs, h]
      simp
  · intro D t1 es hD hch hwin hex
    have hstep : stepEvent D initSync (.trig t1) = ⟨[(0, t1 + D)], some 0, 1, 0⟩ := by
      simp [stepEvent, initSync]
    show (runEvents D (stepEvent D initSync (.trig t1)) es).fired = 1
    rw [hstep]
    rw [burst_run hch (le_refl t1) hwin (by omega)]
    rw [burstFired_of_tick hch (le_refl t1) hwin (by omega) hex]
    rfl

/-- Witness for C4 at a concrete burst: debounce 10, triggers at 0, 3 and 5,
then a tick at 20. -/
theorem claim4_debounce_single_timer_witness :
    Chrono 0 [SEvent.trig 3, SEvent.trig 5, SEvent.tick 20] ∧
    (∀ t, SEvent.trig t ∈ [SEvent.trig 3, SEvent.trig 5, SEvent.tick 20] → t < 0 + 10) ∧
    (∃ u, SEvent.tick u ∈ [SEvent.trig 3, SEvent.trig 5, SEvent.tick 20] ∧
      lastTrigD 0 [SEvent.trig 3, SEvent.trig 5, SEvent.tick 20] + 10 ≤ u) ∧
    (runEvents 10 initSync
      (SEvent.trig 0 :: [SEvent.trig 3, SEvent.trig 5, SEvent.tick 20])).fired = 1 := by
  have hwin : ∀ t, SEvent.trig t ∈ [SEvent.trig 3, SEvent.trig 5, SEvent.tick 20] → t < 0 + 10 := by
    intro t hm
    simp at hm
    omega
  refine ⟨⟨by decide, by decide, by decide, trivial⟩, hwin, ⟨20, by decide, by decide⟩, ?_⟩
  exact claim4_debounce_single_timer.2.2 10 0 [SEvent.trig 3, SEvent.trig 5, SEvent.tick 20]
    (by decide) ⟨by decide, by decide, by decide, trivial⟩ hwin
    ⟨20, by decide, by decide⟩

/-! ### Claim C6 -/

/-- Removing a file by path makes its lookup fail. -/
theorem lookupF_filter_ne (files : List (FPath × FileData)) (p : FPath) :
    lookupF (files.filter (fun q => q.1 ≠ p)) p = none := by
  induction files with
  | nil => rfl
  | cons x rest ih =>
    rw [List.filter_cons]
    by_cases hx : x.1 = p
    · rw [if_neg (by simp [hx])]
      exact ih
    · rw [if_pos (by simp [hx])]
      rw [lookupF, if_neg hx]
      exact ih

/-- The length of a take below the list length. -/
theorem length_take_of_le {α : Type} (l : List α) (m : Nat) (h : m ≤ l.length) :
    (l.take m).length = m := by
  simp [List.length_take]
  omega

/-- Dropping the last element of a longer take. -/
theorem dropLast_take_succ {α : Type} (l : List α) (m : Nat) (h : m + 1 ≤ l.length) :
    (l.take (m + 1)).dropLast = l.take m := by
  rw [List.dropLast_eq_take, List.take_take, length_take_of_le l (m + 1) h]
  congr 1
  omega

/-- Two takes of different lengths below the list length differ. -/
theorem take_ne_take {α : Type} (l : List α) (m m' : Nat) (hm : m ≤ l.length)
    (hm' : m' ≤ l.length) (hne : m ≠ m') : l.take m ≠ l.take m' := by
  intro heq
  have h1 := length_take_of_le l m hm
  have h2 := length_take_of_le l m' hm'
  rw [heq, h2] at h1
  exact hne h1.symm

/-- A directory entry witnesses a non-empty directory. -/
theorem readDir_ne_nil_of_dir (fs : FS) (c q : FPath) (hc : c ∈ fs.dirs)
    (hp : parentOf c = q) (hne : c ≠ q) : readDir fs q ≠ [] := by
  have hm : c ∈ readDir fs q := by
    rw [readDir]
    rw [List.mem_filter]
    constructor
    · exact List.mem_append_right _ hc
    · simp [hp, hne]
  exact List.ne_nil_of_mem hm

/-- Central cleanup lemma: starting from the chain node at depth
`dirP.length + k` with all deeper chain nodes already removed and all chain
nodes up to the current one still present, the upward cleanup leaves no
empty directory strictly between the root and the deleted path, and only
ever removes directories. -/
theorem cleanup_chain (p dirP : FPath) (hdp : dirP = p.take dirP.length)
    (hlen : dirP.length < p.length) :
    ∀ (k : Nat) (fsIn : FS),
      dirP.length + k ≤ p.length - 1 →
      (∀ m, dirP.length ≤ m → m ≤ dirP.length + k → p.take m ∈ fsIn.dirs) →
      (∀ m, dirP.length + k < m → m < p.length → p.take m ∉ fsIn.dirs) →
      ((∀ m, dirP.length < m → m < p.length →
          ¬ (p.take m ∈ (cleanupGo dirP (dirP.length + k + 1) fsIn
                (p.take (dirP.length + k))).dirs ∧
             readDir (cleanupGo dirP (dirP.length + k + 1) fsIn
                (p.take (dirP.length + k))) (p.take m) = [])) ∧
       (∀ q, q ∈ (cleanupGo dirP (dirP.length + k + 1) fsIn
          (p.take (dirP.length + k))).dirs → q ∈ fsIn.dirs) ∧
       (cleanupGo dirP (dirP.length + k + 1) fsIn (p.take (dirP.length + k))).files =
         fsIn.files ∧
       (dirP ∈ fsIn.dirs →
         dirP ∈ (cleanupGo dirP (dirP.length + k + 1) fsIn (p.take (dirP.length + k))).dirs)) := by
  intro k
  induction k with
  | zero =>
    intro fsIn hk hin hout
    have hcur : p.take (dirP.length + 0) = dirP := by
      rw [Nat.add_zero, ← hdp]
    have hstop : cleanupGo dirP (dirP.length + 0 + 1) fsIn (p.take (dirP.length + 0)) = fsIn := by
      rw [cleanupGo, if_pos hcur]
    rw [hstop]
    refine ⟨?_, fun q hq => hq, rfl, fun hq => hq⟩
    intro m hm1 hm2 hand
    exact (hout m (by omega) hm2) hand.1
  | succ k' ih =>
    intro fsIn hk hin hout
    have hj : dirP.length + (k' + 1) ≤ p.length - 1 := hk
    have hjlt : dirP.length + k' + 1 < p.length := by omega
    have hcur_ne : p.take (dirP.length + (k' + 1)) ≠ dirP := by
      intro he
      have h1 : (p.take (dirP.length + (k' + 1))).length = dirP.length + (k' + 1) :=
        length_take_of_le p _ (by omega)
      rw [he] at h1
      omega
    by_cases hbreak : (readDir fsIn (p.take (dirP.length + (k' + 1)))).length > 0
    · have hstop : cleanupGo dirP (dirP.length + (k' + 1) + 1) fsIn
          (p.take (dirP.length + (k' + 1))) = fsIn := by
        rw [cleanupGo, if_neg hcur_ne, if_pos hbreak]
      rw [hstop]
      refine ⟨?_, fun q hq => hq, rfl, fun hq => hq⟩
      intro m hm1 hm2 hand
      rcases Nat.lt_trichotomy m (dirP.length + (k' + 1)) with hmj | hmj | hmj
      · have hchild : p.take (m + 1) ∈ fsIn.dirs := hin (m + 1) (by omega) (by omega)
        have hpar : parentOf (p.take (m + 1)) = p.take m :=
          dropLast_take_succ p m (by omega)
        have hne : p.take (m + 1) ≠ p.take m :=
          take_ne_take p _ _ (by omega) (by omega) (by omega)
        exact readDir_ne_nil_of_dir fsIn _ _ hchild hpar hne hand.2
      · subst hmj
        have : readDir fsIn (p.take (dirP.length + (k' + 1))) ≠ [] := by
          intro hnil
          rw [hnil] at hbreak
          simp at hbreak
        exact this hand.2
      · exact (hout m (by omega) hm2) hand.1
    · have hmemRD : ∀ q : FPath,
          q ∈ (removeDir fsIn (p.take (dirP.length + (k' + 1)))).dirs ↔
          q ∈ fsIn.dirs ∧ q ≠ p.take (dirP.length + (k' + 1)) := by
        intro q
        show q ∈ fsIn.dirs.filter _ ↔ _
        rw [List.mem_filter]
        simp
      have hrec : cleanupGo dirP (dirP.length + (k' + 1) + 1) fsIn
          (p.take (dirP.length + (k' + 1))) =
          cleanupGo dirP (dirP.length + k' + 1)
            (removeDir fsIn (p.take (dirP.length + (k' + 1))))
            (p.take (dirP.length + k')) := by
        have hpar : parentOf (p.take (dirP.length + (k' + 1))) = p.take (dirP.length + k') := by
          have hadd : dirP.length + (k' + 1) = (dirP.length + k') + 1 := by omega
          rw [hadd]
          exact dropLast_take_succ p _ (by omega)
        rw [cleanupGo, if_neg hcur_ne, if_neg hbreak, hpar]
        rfl
      rw [hrec]
      have hres := ih (removeDir fsIn (p.take (dirP.length + (k' + 1))))
        (by omega)
        (by
          intro m hm1 hm2
          have hmem : p.take m ∈ fsIn.dirs := hin m hm1 (by omega)
          rw [hmemRD]
          exact ⟨hmem, take_ne_take p _ _ (by omega) (by omega) (by omega)⟩)
        (by
          intro m hm1 hm2
          rcases Nat.lt_or_ge m (dirP.length + (k' + 1) + 1) with hmj | hmj
          · have hmeq : m = dirP.length + (k' + 1) := by omega
            subst hmeq
            intro hmem
            exact ((hmemRD _).mp hmem).2 rfl
          · intro hmem
            exact (hout m (by omega) hm2) ((hmemRD _).mp hmem).1)
      refine ⟨hres.1, ?_, hres.2.2.1, ?_⟩
      · intro q hq
        exact ((hmemRD q).mp (hres.2.1 q hq)).1
      · intro hq
        apply hres.2.2.2
        rw [hmemRD]
        exact ⟨hq, fun he => hcur_ne he.symm⟩

/-- C6: after deleting an existing file whose path lies strictly under the
root and whose chain of parent directories exists, no empty directory
remains on the deleted key's ancestor chain strictly between the root and
the file, the file itself is gone, the root directory is never removed, and
the response is 204. -/
theorem claim6_empty_dir_cleanup (dir : FPath) (fs : FS) (key : Str)
    (hfile : (lookupF fs.files (joinPath dir key)).isSome = true)
    (hdp : dir = (joinPath dir key).take dir.length)
    (hlen : dir.length < (joinPath dir key).length)
    (hchain : ∀ m, m < (joinPath dir key).length → dir.length ≤ m →
      (joinPath dir key).take m ∈ fs.dirs) :
    (∀ m, dir.length < m → m < (joinPath dir key).length →
      ¬ ((joinPath dir key).take m ∈ (deleteObject dir fs key).2.1.dirs ∧
         readDir (deleteObject dir fs key).2.1 ((joinPath dir key).take m) = [])) ∧
    lookupF (deleteObject dir fs key).2.1.files (joinPath dir key) = none ∧
    dir ∈ (deleteObject dir fs key).2.1.dirs ∧
    (deleteObject dir fs key).1.status = 204 := by
  set p := joinPath dir key with hp
  set fs1 : FS := { fs with files := fs.files.filter (fun q => q.1 ≠ p) } with hfs1
  have hrm : removePath fs p = .ok fs1 := by
    rw [removePath, if_pos hfile]
  have hdel : deleteObject dir fs key =
      ({ status := 204, headers := [], body := .empty },
       cleanupGo dir ((parentOf p).length + 1) fs1 (parentOf p), true) := by
    rw [deleteObject, ← hp, hrm]
  have hpar : parentOf p = p.take (p.length - 1) := List.dropLast_eq_take p
  have hparlen : (parentOf p).length = p.length - 1 := by
    rw [hpar]
    exact length_take_of_le p _ (by omega)
  have hk : dir.length + (p.length - 1 - dir.length) = p.length - 1 := by omega
  have hres := cleanup_chain p dir hdp hlen (p.length - 1 - dir.length) fs1
    (by omega)
    (by
      intro m hm1 hm2
      show p.take m ∈ fs.dirs
      exact hchain m (by omega) hm1)
    (by
      intro m hm1 hm2 hmem
      omega)
  have hstart : p.take (dir.length + (p.length - 1 - dir.length)) = parentOf p := by
    rw [hpar, hk]
  have hflen : dir.length + (p.length - 1 - dir.length) + 1 = (parentOf p).length + 1 := by
    rw [hparlen, hk]
  rw [hstart, hflen] at hres
  rw [hdel]
  refine ⟨hres.1, ?_, ?_, rfl⟩
  · show lookupF (cleanupGo dir ((parentOf p).length + 1) fs1 (parentOf p)).files p = none
    rw [hres.2.2.1]
    show lookupF (fs.files.filter (fun q => q.1 ≠ p)) p = none
    exact lookupF_filter_ne fs.files p
  · show dir ∈ (cleanupGo dir ((parentOf p).length + 1) fs1 (parentOf p)).dirs
    apply hres.2.2.2
    show dir ∈ fs.dirs
    have hd : p.take dir.length ∈ fs.dirs := hchain dir.length hlen (le_refl _)
    rw [hdp]
    exact hd

/-- Witness for C6: deleting the only file of the nested directory `a/b`
under root `r` leaves no empty directory on the chain and keeps the root. -/
theorem claim6_empty_dir_cleanup_witness :
    ((lookupF wit6fs.files (joinPath ["r".toList] ("a/b/f.txt".toList))).isSome = true ∧
     (["r".toList] : FPath) =
       (joinPath ["r".toList] ("a/b/f.txt".toList)).take (["r".toList] : FPath).length ∧
     (["r".toList] : FPath).length < (joinPath ["r".toList] ("a/b/f.txt".toList)).length ∧
     (∀ m, m < (joinPath ["r".toList] ("a/b/f.txt".toList)).length →
       (["r".toList] : FPath).length ≤ m →
       (joinPath ["r".toList] ("a/b/f.txt".toList)).take m ∈ wit6fs.dirs)) ∧
    (lookupF (deleteObject ["r".toList] wit6fs ("a/b/f.txt".toList)).2.1.files
        (joinPath ["r".toList] ("a/b/f.txt".toList)) = none ∧
     (["r".toList] : FPath) ∈ (deleteObject ["r".toList] wit6fs ("a/b/f.txt".toList)).2.1.dirs ∧
     (deleteObject ["r".toList] wit6fs ("a/b/f.txt".toList)).1.status = 204) := by
  refine ⟨⟨by decide, by decide, by decide, by decide⟩, ?_⟩
  have h := claim6_empty_dir_cleanup ["r".toList] wit6fs ("a/b/f.txt".toList)
    (by decide) (by decide) (by decide) (by decide)
  exact ⟨h.2.1, h.2.2.1, h.2.2.2⟩

/-! ### SigV4 parsing lemmas -/

/-- Go `strings.Split` on a two-character separator, across the first
separator occurrence. -/
theorem splitSeq_append (s1 s2 : Char) (b : Str) :
    ∀ (a : Str), (∀ c ∈ a, c ≠ s1) →
      splitSeq s1 s2 (a ++ s1 :: s2 :: b) = a :: splitSeq s1 s2 b := by
  intro a
  induction a with
  | nil =>
    intro _
    show splitSeq s1 s2 (s1 :: s2 :: b) = _
    simp [splitSeq]
  | cons c a' ih =>
    intro hc
    have hcne : c ≠ s1 := hc c (List.mem_cons_self _ _)
    show splitSeq s1 s2 (c :: (a' ++ s1 :: s2 :: b)) = _
    cases ha' : a' ++ s1 :: s2 :: b with
    | nil => simp at ha'
    | cons d rest' =>
      simp only [splitSeq]
      rw [if_neg (fun h => hcne h.1)]
      rw [← ha', ih (fun x hx => hc x (List.mem_cons_of_mem _ hx))]

/-- A string without the leading separator character splits into itself. -/
theorem splitSeq_no_sep (s1 s2 : Char) :
    ∀ (a : Str), (∀ c ∈ a, c ≠ s1) → splitSeq s1 s2 a = [a] := by
  intro a
  induction a with
  | nil => intro _; rfl
  | cons c a' ih =>
    intro hc
    cases a' with
    | nil => rfl
    | cons c2 rest =>
      simp only [splitSeq]
      rw [if_neg (fun h => (hc c (List.mem_cons_self _ _)) h.1)]
      rw [ih (fun x hx => hc x (List.mem_cons_of_mem _ hx))]

/-- Go `strings.Split` on a one-character separator, across the first
occurrence. -/
theorem splitChar_append (sep : Char) (b : Str) :
    ∀ (a : Str), (∀ c ∈ a, c ≠ sep) →
      splitChar sep (a ++ sep :: b) = a :: splitChar sep b := by
  intro a
  induction a with
  | nil =>
    intro _
    show splitChar sep (sep :: b) = _
    simp [splitChar]
  | cons c a' ih =>
    intro hc
    show splitChar sep (c :: (a' ++ sep :: b)) = _
    simp only [splitChar]
    rw [if_neg (hc c (List.mem_cons_self _ _))]
    rw [ih (fun x hx => hc x (List.mem_cons_of_mem _ hx))]

/-- A string without the separator splits into itself. -/
theorem splitChar_no_sep (sep : Char) :
    ∀ (a : Str), (∀ c ∈ a, c ≠ sep) → splitChar sep a = [a] := by
  intro a
  induction a with
  | nil => intro _; rfl
  | cons c a' ih =>
    intro hc
    simp only [splitChar]
    rw [if_neg (hc c (List.mem_cons_self _ _))]
    rw [ih (fun x hx => hc x (List.mem_cons_of_mem _ hx))]

/-- Go `strings.SplitN(s, sep, 2)` across the first occurrence. -/
theorem splitN2_append (sep : Char) (b : Str) :
    ∀ (a : Str), (∀ c ∈ a, c ≠ sep) → splitN2 sep (a ++ sep :: b) = [a, b] := by
  intro a
  induction a with
  | nil =>
    intro _
    show splitN2 sep (sep :: b) = _
    simp [splitN2]
  | cons c a' ih =>
    intro hc
    show splitN2 sep (c :: (a' ++ sep :: b)) = _
    simp only [splitN2]
    rw [if_neg (hc c (List.mem_cons_self _ _))]
    rw [ih (fun x hx => hc x (List.mem_cons_of_mem _ hx))]

/-- Trimming leaves a string with no leading whitespace unchanged. -/
theorem trimLeft_eq_self {s : Str} (h : ∀ c ∈ s, goIsSpace c = false) :
    trimLeft s = s := by
  cases s with
  | nil => rfl
  | cons c rest =>
    rw [trimLeft, if_neg (by simp [h c (List.mem_cons_self _ _)])]

/-- Trimming leaves a whitespace-free string unchanged. -/
theorem trimSpace_eq_self {s : Str} (h : ∀ c ∈ s, goIsSpace c = false) :
    trimSpace s = s := by
  rw [trimSpace, trimLeft_eq_self h]
  rw [trimLeft_eq_self (fun c hc => h c (List.mem_reverse.mp hc))]
  exact List.reverse_reverse s

/-- Membership under ordered insertion. -/
theorem mem_insertLe {α : Type} (le : α → α → Bool) (x a : α) :
    ∀ l, a ∈ insertLe le x l ↔ a = x ∨ a ∈ l := by
  intro l
  induction l with
  | nil => simp [insertLe]
  | cons y ys ih =>
    rw [insertLe]
    by_cases hxy : le x y = true
    · rw [if_pos hxy]
      simp
    · rw [if_neg hxy]
      simp only [List.mem_cons, ih]
      tauto

/-- Sorting preserves membership. -/
theorem mem_sortLe {α : Type} (le : α → α → Bool) (a : α) :
    ∀ l, a ∈ sortLe le l ↔ a ∈ l := by
  intro l
  induction l with
  | nil => simp [sortLe]
  | cons x xs ih =>
    rw [sortLe, mem_insertLe]
    simp only [List.mem_cons, ih]

/-- Reading back the header `Set` just wrote. -/
theorem headerGet_setHeader_same (hs : List (Str × Str)) (n v : Str) :
    headerGet (setHeader hs n v) n = v := by
  simp [headerGet, setHeader, List.find?]

/-- Reading a different header after a `Set`. -/
theorem headerGet_setHeader_other (hs : List (Str × Str)) (n n' v : Str)
    (h : lowerStr n' ≠ lowerStr n) :
    headerGet (setHeader hs n v) n' = headerGet hs n' := by
  rw [headerGet, setHeader, headerGet]
  have hhead : ((lowerStr n, v).1 == lowerStr n') = false := by
    simp only [beq_eq_false_iff_ne]
    exact fun he => h he.symm
  rw [List.find?_cons, hhead]
  have hfilt : ∀ (l : List (Str × Str)),
      (l.filter (fun kv => kv.1 != lowerStr n)).find? (fun kv => kv.1 == lowerStr n') =
        l.find? (fun kv => kv.1 == lowerStr n') := by
    intro l
    induction l with
    | nil => rfl
    | cons kv rest ih =>
      rw [List.filter_cons]
      by_cases hk : kv.1 = lowerStr n
      · rw [if_neg (by simp [hk])]
        rw [List.find?_cons]
        have : (kv.1 == lowerStr n') = false := by
          simp only [beq_eq_false_iff_ne, hk]
          exact fun he => h he.symm
        rw [this, ih]
      · rw [if_pos (by simp [hk])]
        rw [List.find?_cons, List.find?_cons]
        cases hb : (kv.1 == lowerStr n') with
        | true => rfl
        | false => exact ih
  rw [hfilt]

/-- A header lookup is unaffected by setting the authorization header, for
any other name. -/
theorem headerGet_setAuth (hs : List (Str × Str)) (v name : Str)
    (hne : lowerStr name ≠ "authorization".toList) :
    headerGet (setHeader hs ("authorization".toList) v) name = headerGet hs name := by
  apply headerGet_setHeader_other
  rw [show lowerStr ("authorization".toList) = "authorization".toList from by decide]
  exact hne

/-- The canonical request ignores the authorization header when it is not
among the signed header names. -/
theorem canonicalRequestFor_setAuth (r : Request) (v sh : Str)
    (hauth : ∀ h ∈ splitChar ';' sh, lowerStr h ≠ "authorization".toList) :
    canonicalRequestFor { r with headers := setHeader r.headers ("authorization".toList) v } sh =
      canonicalRequestFor r sh := by
  simp only [canonicalRequestFor, canonicalHeadersFor]
  have hmap : (sortLe lexLeB (splitChar ';' sh)).map (fun h =>
      h ++ ":".toList ++
      (if h = "host".toList then r.host
       else trimSpace (headerGet (setHeader r.headers ("authorization".toList) v) h)) ++
      ['\n']) =
      (sortLe lexLeB (splitChar ';' sh)).map (fun h =>
      h ++ ":".toList ++
      (if h = "host".toList then r.host else trimSpace (headerGet r.headers h)) ++
      ['\n']) := by
    apply List.map_congr_left
    intro h hm
    by_cases hh : h = "host".toList
    · rw [if_pos hh, if_pos hh]
    · rw [if_neg hh, if_neg hh]
      rw [headerGet_setAuth _ _ _ (hauth h ((mem_sortLe _ _ _).mp hm))]
  rw [hmap]
  rw [headerGet_setAuth _ _ _ (by decide)]

/-- The string-to-sign ignores the authorization header when it is not
among the signed header names. -/
theorem stringToSignFor_setAuth (r : Request) (v ds rg svc sh : Str)
    (hauth : ∀ h ∈ splitChar ';' sh, lowerStr h ≠ "authorization".toList) :
    stringToSignFor { r with headers := setHeader r.headers ("authorization".toList) v } ds rg svc sh =
      stringToSignFor r ds rg svc sh := by
  simp only [stringToSignFor]
  rw [canonicalRequestFor_setAuth r v sh hauth]
  rw [headerGet_setAuth _ _ _ (by decide)]

/-- The re-derived signature ignores the authorization header when it is
not among the signed header names. -/
theorem sigOf_setAuth (r : Request) (v sk ds rg svc sh : Str)
    (hauth : ∀ h ∈ splitChar ';' sh, lowerStr h ≠ "authorization".toList) :
    sigOf { r with headers := setHeader r.headers ("authorization".toList) v } sk ds rg svc sh =
      sigOf r sk ds rg svc sh := by
  simp only [sigOf]
  rw [stringToSignFor_setAuth r v ds rg svc sh hauth]

/-- Characters of the credential scope string. -/
theorem credStr_chars (ak ds rg svc : Str) (hak : tokOk ak) (hds : tokOk ds)
    (hrg : tokOk rg) (hsvc : tokOk svc) :
    ∀ c ∈ credStr ak ds rg svc, c ≠ ',' ∧ goIsSpace c = false := by
  intro c hc
  have hc2 : c ∈ ak ∨ c ∈ ds ∨ c ∈ rg ∨ c ∈ svc ∨
      c ∈ ("/".toList : Str) ∨ c ∈ ("/aws4_request".toList : Str) := by
    simp only [credStr, List.mem_append] at hc
    tauto
  rcases hc2 with h | h | h | h | h | h
  · exact ⟨(hak c h).1, (hak c h).2.2⟩
  · exact ⟨(hds c h).1, (hds c h).2.2⟩
  · exact ⟨(hrg c h).1, (hrg c h).2.2⟩
  · exact ⟨(hsvc c h).1, (hsvc c h).2.2⟩
  · exact (by decide : ∀ x ∈ ("/".toList : Str), x ≠ ',' ∧ goIsSpace x = false) c h
  · exact (by decide : ∀ x ∈ ("/aws4_request".toList : Str),
      x ≠ ',' ∧ goIsSpace x = false) c h

/-- The credential scope string is never empty. -/
theorem credStr_ne_nil (ak ds rg svc : Str) : credStr ak ds rg svc ≠ [] := by
  intro h
  have hl := congrArg List.length h
  simp [credStr] at hl

/-- Splitting the credential scope on slashes recovers its five parts. -/
theorem credStr_split (ak ds rg svc : Str) (hak : tokOk ak) (hds : tokOk ds)
    (hrg : tokOk rg) (hsvc : tokOk svc) :
    splitChar '/' (credStr ak ds rg svc) =
      [ak, ds, rg, svc, "aws4_request".toList] := by
  have e : credStr ak ds rg svc =
      ak ++ '/' :: (ds ++ '/' :: (rg ++ '/' :: (svc ++ '/' :: "aws4_request".toList))) := by
    rw [credStr]
    rw [show ("/".toList : Str) = ['/'] from rfl]
    rw [show ("/aws4_request".toList : Str) = '/' :: "aws4_request".toList from rfl]
    simp [List.append_assoc]
  rw [e]
  rw [splitChar_append '/' _ ak (fun c hc => (hak c hc).2.1)]
  rw [splitChar_append '/' _ ds (fun c hc => (hds c hc).2.1)]
  rw [splitChar_append '/' _ rg (fun c hc => (hrg c hc).2.1)]
  rw [splitChar_append '/' _ svc (fun c hc => (hsvc c hc).2.1)]
  rw [splitChar_no_sep '/' _ (by decide)]

/-- The signature value the verifier re-derives is 64 hex characters. -/
theorem sigOf_mem_hex (r : Request) (sk ds rg svc sh : Str) :
    ∀ c ∈ sigOf r sk ds rg svc sh, c ∈ hexDigits := by
  intro c hc
  exact hexEncode_mem _ (sha256_lt _) c hc

/-- An HMAC-SHA256 digest has 32 bytes. -/
theorem hmacSHA256_length (key data : List Nat) : (hmacSHA256 key data).length = 32 := by
  simp only [hmacSHA256]
  exact sha256_length _

/-- The re-derived signature is never empty. -/
theorem sigOf_ne_nil (r : Request) (sk ds rg svc sh : Str) :
    sigOf r sk ds rg svc sh ≠ [] := by
  intro h
  have hl := congrArg List.length h
  rw [sigOf, hexEncode_length, hmacSHA256_length] at hl
  simp at hl

/-- Hex digit characters are neither commas nor whitespace. -/
theorem hexDigits_plain : ∀ c ∈ hexDigits, c ≠ ',' ∧ goIsSpace c = false := by
  decide

/-- Every well-formed authorization header makes `sigV4Verify` reduce to
the credential-scope checks followed by the signature comparison. -/
theorem sigV4Verify_eq_fields (r : Request) (ak sk rg ds svc sh sig : Str)
    (hcred : ∀ c ∈ credStr ak ds rg svc, c ≠ ',' ∧ goIsSpace c = false)
    (hsh : plainTok sh) (hshne : sh ≠ []) (hsig : plainTok sig) (hsigne : sig ≠ [])
    (hget : headerGet r.headers ("authorization".toList) =
      authHeaderFor ak ds rg svc sh sig) :
    sigV4Verify r ak sk rg =
      (if (splitChar '/' (credStr ak ds rg svc)).length ≠ 5 ∨
          (splitChar '/' (credStr ak ds rg svc)).getD 0 [] ≠ ak then false
       else if (splitChar '/' (credStr ak ds rg svc)).getD 2 [] ≠ rg then false
       else (sig == sigOf r sk ((splitChar '/' (credStr ak ds rg svc)).getD 1 [])
         ((splitChar '/' (credStr ak ds rg svc)).getD 2 [])
         ((splitChar '/' (credStr ak ds rg svc)).getD 3 []) sh)) := by
  have hAne : authHeaderFor ak ds rg svc sh sig ≠ [] := by
    intro h
    have hl := congrArg List.length h
    simp [authHeaderFor] at hl
  have hpref : ("AWS4-HMAC-SHA256 ".toList).isPrefixOf
      (authHeaderFor ak ds rg svc sh sig) = true := by
    rw [authHeaderFor]
    exact List.isPrefixOf_iff_prefix.mpr (List.prefix_append _ _)
  have hdrop : (authHeaderFor ak ds rg svc sh sig).drop
      ("AWS4-HMAC-SHA256 ".toList).length =
      ("Credential=".toList ++ credStr ak ds rg svc) ++
        ',' :: ' ' :: (("SignedHeaders=".toList ++ sh) ++
          ',' :: ' ' :: ("Signature=".toList ++ sig)) := by
    rw [show authHeaderFor ak ds rg svc sh sig =
        "AWS4-HMAC-SHA256 ".toList ++
          (("Credential=".toList ++ credStr ak ds rg svc) ++
            ',' :: ' ' :: (("SignedHeaders=".toList ++ sh) ++
              ',' :: ' ' :: ("Signature=".toList ++ sig))) from by
      rw [authHeaderFor]
      rw [show (", ".toList : Str) = [',', ' '] from rfl]
      simp [List.append_assoc]]
    exact List.drop_left _ _
  have hsplit : splitSeq ',' ' '
      (("Credential=".toList ++ credStr ak ds rg svc) ++
        ',' :: ' ' :: (("SignedHeaders=".toList ++ sh) ++
          ',' :: ' ' :: ("Signature=".toList ++ sig))) =
      ["Credential=".toList ++ credStr ak ds rg svc,
       "SignedHeaders=".toList ++ sh,
       "Signature=".toList ++ sig] := by
    rw [splitSeq_append ',' ' ' _ _ (by
      intro c hc
      rcases List.mem_append.mp hc with h | h
      · exact (by decide : ∀ x ∈ ("Credential=".toList : Str), x ≠ ',') c h
      · exact (hcred c h).1)]
    rw [splitSeq_append ',' ' ' _ _ (by
      intro c hc
      rcases List.mem_append.mp hc with h | h
      · exact (by decide : ∀ x ∈ ("SignedHeaders=".toList : Str), x ≠ ',') c h
      · exact (hsh c h).1)]
    rw [splitSeq_no_sep ',' ' ' _ (by
      intro c hc
      rcases List.mem_append.mp hc with h | h
      · exact (by decide : ∀ x ∈ ("Signature=".toList : Str), x ≠ ',') c h
      · exact (hsig c h).1)]
  have hfields : fieldsOf
      ["Credential=".toList ++ credStr ak ds rg svc,
       "SignedHeaders=".toList ++ sh,
       "Signature=".toList ++ sig] =
      [("Credential".toList, credStr ak ds rg svc),
       ("SignedHeaders".toList, sh),
       ("Signature".toList, sig)] := by
    rw [show ("Credential=".toList ++ credStr ak ds rg svc : Str) =
      "Credential".toList ++ '=' :: credStr ak ds rg svc from rfl]
    rw [show ("SignedHeaders=".toList ++ sh : Str) =
      "SignedHeaders".toList ++ '=' :: sh from rfl]
    rw [show ("Signature=".toList ++ sig : Str) =
      "Signature".toList ++ '=' :: sig from rfl]
    simp only [fieldsOf, List.filterMap_cons]
    rw [splitN2_append '=' _ _ (by decide)]
    rw [splitN2_append '=' _ _ (by decide)]
    rw [splitN2_append '=' _ _ (by decide)]
    simp only [List.filterMap_nil]
    rw [trimSpace_eq_self (fun c hc => (hcred c hc).2)]
    rw [trimSpace_eq_self (fun c hc => (hsh c hc).2)]
    rw [trimSpace_eq_self (fun c hc => (hsig c hc).2)]
    rw [show trimSpace ("Credential".toList) = "Credential".toList from by decide]
    rw [show trimSpace ("SignedHeaders".toList) = "SignedHeaders".toList from by decide]
    rw [show trimSpace ("Signature".toList) = "Signature".toList from by decide]
  have hgetC : mapGet
      [("Credential".toList, credStr ak ds rg svc),
       ("SignedHeaders".toList, sh), ("Signature".toList, sig)]
      ("Credential".toList) = credStr ak ds rg svc := by
    simp only [mapGet, List.reverse_cons, List.reverse_nil, List.nil_append,
      List.cons_append, List.find?]
    rw [show (("Signature".toList : Str) == "Credential".toList) = false from by decide]
    rw [show (("SignedHeaders".toList : Str) == "Credential".toList) = false from by decide]
    rw [show (("Credential".toList : Str) == "Credential".toList) = true from by decide]
  have hgetS : mapGet
      [("Credential".toList, credStr ak ds rg svc),
       ("SignedHeaders".toList, sh), ("Signature".toList, sig)]
      ("SignedHeaders".toList) = sh := by
    simp only [mapGet, List.reverse_cons, List.reverse_nil, List.nil_append,
      List.cons_append, List.find?]
    rw [show (("Signature".toList : Str) == "SignedHeaders".toList) = false from by decide]
    rw [show (("SignedHeaders".toList : Str) == "SignedHeaders".toList) = true from by decide]
  have hgetG : mapGet
      [("Credential".toList, credStr ak ds rg svc),
       ("SignedHeaders".toList, sh), ("Signature".toList, sig)]
      ("Signature".toList) = sig := by
    simp only [mapGet, List.reverse_cons, List.reverse_nil, List.nil_append,
      List.cons_append, List.find?]
    rw [show (("Signature".toList : Str) == "Signature".toList) = true from by decide]
  rw [sigV4Verify]
  rw [hget]
  rw [if_neg hAne]
  rw [if_neg (fun hn => hn hpref)]
  rw [hdrop]
  simp only [hsplit, hfields, hgetC, hgetS, hgetG]
  rw [if_neg (by
    push_neg
    exact ⟨credStr_ne_nil ak ds rg svc, hshne, hsigne⟩)]

/-- Every well-formed authorization header over slash-free credential
components makes `sigV4Verify` reduce to the timing-safe comparison of the
transported signature against the re-derived one. -/
theorem sigV4Verify_eq_check (r : Request) (ak sk rg ds svc sh sig : Str)
    (hak : tokOk ak) (hds : tokOk ds) (hrg : tokOk rg) (hsvc : tokOk svc)
    (hsh : plainTok sh) (hshne : sh ≠ []) (hsig : plainTok sig) (hsigne : sig ≠ [])
    (hget : headerGet r.headers ("authorization".toList) =
      authHeaderFor ak ds rg svc sh sig) :
    sigV4Verify r ak sk rg = (sig == sigOf r sk ds rg svc sh) := by
  rw [sigV4Verify_eq_fields r ak sk rg ds svc sh sig
    (credStr_chars ak ds rg svc hak hds hrg hsvc) hsh hshne hsig hsigne hget]
  rw [credStr_split ak ds rg svc hak hds hrg hsvc]
  simp [List.getD]

/-- Splitting a credential scope whose access key contains one slash on
slashes yields six parts, not five. -/
theorem credStr_split_slash (ak1 ak2 ds rg svc : Str)
    (hak1 : tokOk ak1) (hak2 : tokOk ak2) (hds : tokOk ds)
    (hrg : tokOk rg) (hsvc : tokOk svc) :
    splitChar '/' (credStr (ak1 ++ '/' :: ak2) ds rg svc) =
      [ak1, ak2, ds, rg, svc, "aws4_request".toList] := by
  have e : credStr (ak1 ++ '/' :: ak2) ds rg svc =
      ak1 ++ '/' :: (ak2 ++ '/' :: (ds ++ '/' :: (rg ++ '/' :: (svc ++ '/' ::
        "aws4_request".toList)))) := by
    rw [credStr]
    rw [show ("/".toList : Str) = ['/'] from rfl]
    rw [show ("/aws4_request".toList : Str) = '/' :: "aws4_request".toList from rfl]
    simp [List.append_assoc]
  rw [e]
  rw [splitChar_append '/' _ ak1 (fun c hc => (hak1 c hc).2.1)]
  rw [splitChar_append '/' _ ak2 (fun c hc => (hak2 c hc).2.1)]
  rw [splitChar_append '/' _ ds (fun c hc => (hds c hc).2.1)]
  rw [splitChar_append '/' _ rg (fun c hc => (hrg c hc).2.1)]
  rw [splitChar_append '/' _ svc (fun c hc => (hsvc c hc).2.1)]
  rw [splitChar_no_sep '/' _ (by decide)]

/-- An access key containing a slash always fails verification, even on a
request signed exactly per the algorithm with that key: the credential
scope splits into six parts instead of five. -/
theorem sigV4Verify_slash_key (r : Request) (ak1 ak2 sk rg ds svc sh sig : Str)
    (hak1 : tokOk ak1) (hak2 : tokOk ak2) (hds : tokOk ds) (hrg : tokOk rg)
    (hsvc : tokOk svc) (hsh : plainTok sh) (hshne : sh ≠ [])
    (hsig : plainTok sig) (hsigne : sig ≠ [])
    (hget : headerGet r.headers ("authorization".toList) =
      authHeaderFor (ak1 ++ '/' :: ak2) ds rg svc sh sig) :
    sigV4Verify r (ak1 ++ '/' :: ak2) sk rg = false := by
  have hcred : ∀ c ∈ credStr (ak1 ++ '/' :: ak2) ds rg svc,
      c ≠ ',' ∧ goIsSpace c = false := by
    intro c hc
    have hc2 : c ∈ ak1 ∨ c ∈ ('/' :: ak2 : Str) ∨ c ∈ ds ∨ c ∈ rg ∨ c ∈ svc ∨
        c ∈ ("/".toList : Str) ∨ c ∈ ("/aws4_request".toList : Str) := by
      simp only [credStr, List.mem_append] at hc
      tauto
    rcases hc2 with h | h | h | h | h | h | h
    · exact ⟨(hak1 c h).1, (hak1 c h).2.2⟩
    · rcases List.mem_cons.mp h with rfl | h2
      · exact ⟨by decide, by decide⟩
      · exact ⟨(hak2 c h2).1, (hak2 c h2).2.2⟩
    · exact ⟨(hds c h).1, (hds c h).2.2⟩
    · exact ⟨(hrg c h).1, (hrg c h).2.2⟩
    · exact ⟨(hsvc c h).1, (hsvc c h).2.2⟩
    · exact (by decide : ∀ x ∈ ("/".toList : Str), x ≠ ',' ∧ goIsSpace x = false) c h
    · exact (by decide : ∀ x ∈ ("/aws4_request".toList : Str),
        x ≠ ',' ∧ goIsSpace x = false) c h
  rw [sigV4Verify_eq_fields r (ak1 ++ '/' :: ak2) sk rg ds svc sh sig
    hcred hsh hshne hsig hsigne hget]
  rw [credStr_split_slash ak1 ak2 ds rg svc hak1 hak2 hds hrg hsvc]
  simp

/-- Two requests agreeing on everything the canonical request reads - the
method, the escaped path, the query, the host, the date and payload-hash
headers, and the trimmed value of every signed header - re-derive the same
signature. -/
theorem sigOf_congr (r1 r2 : Request) (sk ds rg svc sh : Str)
    (hm : r1.method = r2.method) (hp : r1.escapedPath = r2.escapedPath)
    (hq : r1.query = r2.query) (hhost : r1.host = r2.host)
    (hdt : headerGet r1.headers ("x-amz-date".toList) =
      headerGet r2.headers ("x-amz-date".toList))
    (hps : headerGet r1.headers ("x-amz-content-sha256".toList) =
      headerGet r2.headers ("x-amz-content-sha256".toList))
    (hhs : ∀ h ∈ sortLe lexLeB (splitChar ';' sh),
      trimSpace (headerGet r1.headers h) = trimSpace (headerGet r2.headers h)) :
    sigOf r1 sk ds rg svc sh = sigOf r2 sk ds rg svc sh := by
  have hch : canonicalHeadersFor r1 (sortLe lexLeB (splitChar ';' sh)) =
      canonicalHeadersFor r2 (sortLe lexLeB (splitChar ';' sh)) := by
    simp only [canonicalHeadersFor]
    congr 1
    apply List.map_congr_left
    intro h hmem
    by_cases hh : h = "host".toList
    · rw [if_pos hh, if_pos hh, hhost]
    · rw [if_neg hh, if_neg hh, hhs h hmem]
  have hcr : canonicalRequestFor r1 sh = canonicalRequestFor r2 sh := by
    simp only [canonicalRequestFor]
    rw [hm, hp, hq, hps, hch]
  simp only [sigOf, stringToSignFor]
  rw [hdt, hcr]

/-- C1 (amended): for credential components free of commas, slashes and
whitespace, and a non-empty SignedHeaders list that does not sign the
`Authorization` header itself, (1) signing a request and re-verifying it
returns true; (2) replacing the transported signature by any other
well-formed value makes verification fail; (3) any request carrying that
same authorization header whose re-derived signature differs - as after a
mutation of the method, the path, the query, the payload, or a signed
header that changes the canonical request - fails verification.  The
original claim is corrected in two ways (see the counterexample): an access
key containing a slash defeats the round-trip because the credential-scope
parser splits on slashes, and a signed header value may be mutated without
flipping the verdict because the verifier trims each header value before
canonicalisation. -/
theorem claim1_sigv4_verify (r : Request) (ak sk rg ds svc sh : Str)
    (hak : tokOk ak) (hds : tokOk ds) (hrg : tokOk rg) (hsvc : tokOk svc)
    (hsh : plainTok sh) (hshne : sh ≠ [])
    (hauth : ∀ h ∈ splitChar ';' sh, lowerStr h ≠ "authorization".toList) :
    sigV4Verify (signRequest r ak sk rg ds svc sh) ak sk rg = true ∧
    (∀ sig2 : Str, plainTok sig2 → sig2 ≠ [] → sig2 ≠ sigOf r sk ds rg svc sh →
      sigV4Verify (withAuth r (authHeaderFor ak ds rg svc sh sig2)) ak sk rg = false) ∧
    (∀ r2 : Request,
      headerGet r2.headers ("authorization".toList) =
        authHeaderFor ak ds rg svc sh (sigOf r sk ds rg svc sh) →
      sigOf r2 sk ds rg svc sh ≠ sigOf r sk ds rg svc sh →
      sigV4Verify r2 ak sk rg = false) := by
  have hsigP : plainTok (sigOf r sk ds rg svc sh) := by
    intro c hc
    exact hexDigits_plain c (sigOf_mem_hex r sk ds rg svc sh c hc)
  have hsigN : sigOf r sk ds rg svc sh ≠ [] := sigOf_ne_nil r sk ds rg svc sh
  refine ⟨?_, ?_, ?_⟩
  · have hget : headerGet (signRequest r ak sk rg ds svc sh).headers
        ("authorization".toList) =
        authHeaderFor ak ds rg svc sh (sigOf r sk ds rg svc sh) :=
      headerGet_setHeader_same r.headers _ _
    rw [sigV4Verify_eq_check (signRequest r ak sk rg ds svc sh) ak sk rg ds svc sh
      (sigOf r sk ds rg svc sh) hak hds hrg hsvc hsh hshne hsigP hsigN hget]
    have he : sigOf (signRequest r ak sk rg ds svc sh) sk ds rg svc sh =
        sigOf r sk ds rg svc sh :=
      sigOf_setAuth r (authHeaderFor ak ds rg svc sh (sigOf r sk ds rg svc sh))
        sk ds rg svc sh hauth
    rw [he]
    exact beq_self_eq_true _
  · intro sig2 hp2 hn2 hne2
    have hget : headerGet (withAuth r (authHeaderFor ak ds rg svc sh sig2)).headers
        ("authorization".toList) = authHeaderFor ak ds rg svc sh sig2 :=
      headerGet_setHeader_same r.headers _ _
    rw [sigV4Verify_eq_check (withAuth r (authHeaderFor ak ds rg svc sh sig2))
      ak sk rg ds svc sh sig2 hak hds hrg hsvc hsh hshne hp2 hn2 hget]
    have he : sigOf (withAuth r (authHeaderFor ak ds rg svc sh sig2)) sk ds rg svc sh =
        sigOf r sk ds rg svc sh :=
      sigOf_setAuth r (authHeaderFor ak ds rg svc sh sig2) sk ds rg svc sh hauth
    rw [he]
    exact beq_eq_false_iff_ne.mpr hne2
  · intro r2 hget2 hne2
    rw [sigV4Verify_eq_check r2 ak sk rg ds svc sh (sigOf r sk ds rg svc sh)
      hak hds hrg hsvc hsh hshne hsigP hsigN hget2]
    exact beq_eq_false_iff_ne.mpr (Ne.symm hne2)

/-- C1 counterexample to the original wording: (a) `cex1bad` is signed
exactly per the signing algorithm with access key `A/B`, yet verification
of the very same request rejects it; (b) `cex1signed` is the same request
signed with the slash-free key `AKID` and verifies; (c) `cex1mut` mutates a
signed byte of `cex1signed` (the leading space of the signed `x-c` header
value becomes a tab) yet still verifies, because the verifier trims header
values before canonicalising. -/
theorem claim1_counterexample :
    sigV4Verify cex1bad ("A/B".toList) ("sk".toList) ("r".toList) = false ∧
    sigV4Verify cex1signed ("AKID".toList) ("sk".toList) ("r".toList) = true ∧
    sigV4Verify cex1mut ("AKID".toList) ("sk".toList) ("r".toList) = true := by
  have hsigP : plainTok (sigOf cex1base ("sk".toList) ("20230101".toList) ("r".toList)
      ("s3".toList) ("x-c".toList)) := by
    intro c hc
    exact hexDigits_plain c (sigOf_mem_hex cex1base _ _ _ _ _ c hc)
  have hsigN : sigOf cex1base ("sk".toList) ("20230101".toList) ("r".toList)
      ("s3".toList) ("x-c".toList) ≠ [] := sigOf_ne_nil cex1base _ _ _ _ _
  have hauthx : ∀ h ∈ splitChar ';' ("x-c".toList),
      lowerStr h ≠ "authorization".toList := by decide
  refine ⟨?_, ?_, ?_⟩
  · have hget : headerGet cex1bad.headers ("authorization".toList) =
        authHeaderFor ("A".toList ++ '/' :: "B".toList) ("20230101".toList) ("r".toList)
          ("s3".toList) ("x-c".toList)
          (sigOf cex1base ("sk".toList) ("20230101".toList) ("r".toList) ("s3".toList)
            ("x-c".toList)) :=
      headerGet_setHeader_same cex1base.headers _ _
    exact sigV4Verify_slash_key cex1bad ("A".toList) ("B".toList) ("sk".toList)
      ("r".toList) ("20230101".toList) ("s3".toList) ("x-c".toList)
      (sigOf cex1base ("sk".toList) ("20230101".toList) ("r".toList) ("s3".toList)
        ("x-c".toList))
      (by unfold tokOk; decide) (by unfold tokOk; decide) (by unfold tokOk; decide)
      (by unfold tokOk; decide) (by unfold tokOk; decide)
      (by unfold plainTok; decide) (by decide) hsigP hsigN hget
  · have hget : headerGet cex1signed.headers ("authorization".toList) =
        authHeaderFor ("AKID".toList) ("20230101".toList) ("r".toList) ("s3".toList)
          ("x-c".toList)
          (sigOf cex1base ("sk".toList) ("20230101".toList) ("r".toList) ("s3".toList)
            ("x-c".toList)) :=
      headerGet_setHeader_same cex1base.headers _ _
    rw [sigV4Verify_eq_check cex1signed ("AKID".toList) ("sk".toList) ("r".toList)
      ("20230101".toList) ("s3".toList) ("x-c".toList)
      (sigOf cex1base ("sk".toList) ("20230101".toList) ("r".toList) ("s3".toList)
        ("x-c".toList))
      (by unfold tokOk; decide) (by unfold tokOk; decide) (by unfold tokOk; decide)
      (by unfold tokOk; decide) (by unfold plainTok; decide) (by decide)
      hsigP hsigN hget]
    have he : sigOf cex1signed ("sk".toList) ("20230101".toList) ("r".toList)
        ("s3".toList) ("x-c".toList) =
        sigOf cex1base ("sk".toList) ("20230101".toList) ("r".toList) ("s3".toList)
          ("x-c".toList) :=
      sigOf_setAuth cex1base (authHeaderFor ("AKID".toList) ("20230101".toList)
        ("r".toList) ("s3".toList) ("x-c".toList)
        (sigOf cex1base ("sk".toList) ("20230101".toList) ("r".toList) ("s3".toList)
          ("x-c".toList))) ("sk".toList) ("20230101".toList) ("r".toList) ("s3".toList)
        ("x-c".toList) hauthx
    rw [he]
    exact beq_self_eq_true _
  · have hh : cex1mut.headers =
        [("authorization".toList,
          authHeaderFor ("AKID".toList) ("20230101".toList) ("r".toList) ("s3".toList)
            ("x-c".toList)
            (sigOf cex1base ("sk".toList) ("20230101".toList) ("r".toList) ("s3".toList)
              ("x-c".toList))),
         ("x-c".toList, "\tv".toList)] := rfl
    have hget : headerGet cex1mut.headers ("authorization".toList) =
        authHeaderFor ("AKID".toList) ("20230101".toList) ("r".toList) ("s3".toList)
          ("x-c".toList)
          (sigOf cex1base ("sk".toList) ("20230101".toList) ("r".toList) ("s3".toList)
            ("x-c".toList)) := by
      rw [hh]
      rfl
    rw [sigV4Verify_eq_check cex1mut ("AKID".toList) ("sk".toList) ("r".toList)
      ("20230101".toList) ("s3".toList) ("x-c".toList)
      (sigOf cex1base ("sk".toList) ("20230101".toList) ("r".toList) ("s3".toList)
        ("x-c".toList))
      (by unfold tokOk; decide) (by unfold tokOk; decide) (by unfold tokOk; decide)
      (by unfold tokOk; decide) (by unfold plainTok; decide) (by decide)
      hsigP hsigN hget]
    have hsorted : sortLe lexLeB (splitChar ';' ("x-c".toList)) = ["x-c".toList] := by
      decide
    have he : sigOf cex1mut ("sk".toList) ("20230101".toList) ("r".toList)
        ("s3".toList) ("x-c".toList) =
        sigOf cex1base ("sk".toList) ("20230101".toList) ("r".toList) ("s3".toList)
          ("x-c".toList) := by
      apply sigOf_congr
      · rfl
      · rfl
      · rfl
      · rfl
      · rw [hh]
        rfl
      · rw [hh]
        rfl
      · intro h hmem
        rw [hsorted] at hmem
        have hx := List.mem_singleton.mp hmem
        subst hx
        rw [hh]
        rfl
    rw [he]
    exact beq_self_eq_true _

/-- C1 witness: the amended theorem applied at a concrete request and
credential triple. -/
theorem claim1_sigv4_verify_witness :
    sigV4Verify (signRequest cex1base ("AKID".toList) ("sk".toList) ("r".toList)
      ("20230101".toList) ("s3".toList) ("x-c".toList))
      ("AKID".toList) ("sk".toList) ("r".toList) = true :=
  (claim1_sigv4_verify cex1base ("AKID".toList) ("sk".toList) ("r".toList)
    ("20230101".toList) ("s3".toList) ("x-c".toList)
    (by unfold tokOk; decide) (by unfold tokOk; decide) (by unfold tokOk; decide)
    (by unfold tokOk; decide) (by unfold plainTok; decide) (by decide)
    (by decide)).1

end Git3
